import Mathlib

/-!
Verification of the chattie retrieval pipeline (src/lib/rag.ts,
src/lib/crossEncoder.ts, src/lib/correctiveRAG.ts) against its
natural-language specification.

The TypeScript sources are shallowly embedded: JavaScript strings are
`List Char` (all inputs of interest are ASCII), numbers that carry scores
are exact rationals `ℚ`, the Prisma store is an explicit state record, and
every external effect (the LLM grading call, a throwing store, a throwing
pipeline stage) is an explicit `Except Unit` oracle passed as a parameter.
JavaScript semantics that matter to the claims are reproduced exactly:
`split` keeps empty segments, `Array.prototype.sort` is a stable sort by
the comparator, `Set` deduplication keeps first occurrences, and a thrown
exception aborts the enclosing computation up to the nearest catch.
-/

namespace Chattie

/-- JavaScript strings, modelled as lists of characters (ASCII contents). -/
abbrev Str := List Char

/-- Whitespace test backing the embedding of the regex class \s
(the ASCII whitespace characters that occur in the modelled data). -/
def isWsChar (c : Char) : Bool := c = ' ' || c = '\t' || c = '\n' || c = '\r'

/-- Word-character test backing the embedding of the regex class \w,
which is [A-Za-z0-9_]. -/
def isWordChar (c : Char) : Bool := c.isAlphanum || c = '_'

/-- JavaScript String.prototype.toLowerCase on ASCII data. -/
def jsToLower (s : Str) : Str := s.map Char.toLower

/-- JavaScript String.prototype.trim: strip leading and trailing whitespace. -/
def jsTrim (s : Str) : Str := ((s.dropWhile isWsChar).reverse.dropWhile isWsChar).reverse

/-- JavaScript String.prototype.includes: substring containment. -/
def jsIncludes (needle hay : Str) : Bool :=
  (List.range (hay.length + 1)).any fun i => needle.isPrefixOf (hay.drop i)

/-- JavaScript String.prototype.indexOf, as an Option (none for -1):
the first index at which the needle occurs. -/
def jsIndexOf (needle hay : Str) : Option Nat :=
  (List.range (hay.length + 1)).find? fun i => needle.isPrefixOf (hay.drop i)

/-- JavaScript split on a single separator character (split('\n'),
split(' ')): every occurrence separates, empty segments are kept, and the
empty string yields one empty segment. -/
def jsSplitChar (sep : Char) : Str → List Str
  | [] => [[]]
  | c :: cs =>
    match jsSplitChar sep cs with
    | [] => [[]]
    | r :: rs => if c = sep then [] :: r :: rs else (c :: r) :: rs

/-- JavaScript split(/\s+/): a separator is a maximal nonempty run of
whitespace; leading or trailing runs produce empty segments, exactly as in
JavaScript. -/
def jsSplitWs : Str → List Str
  | [] => [[]]
  | c :: cs =>
    match jsSplitWs cs with
    | [] => [[]]
    | r :: rs =>
      if isWsChar c then
        match cs with
        | [] => [] :: r :: rs
        | c2 :: _ => if isWsChar c2 then r :: rs else [] :: r :: rs
      else (c :: r) :: rs

/-- Fuel-driven worker for `jsSplitSeq`; the fuel is an upper bound on the
number of characters still to be consumed, so a fuel of length + 1 never
runs out. -/
def jsSplitSeqAux (sep : Str) : Nat → Str → Str → List Str
  | _, acc, [] => [acc.reverse]
  | 0, acc, rest => [acc.reverse ++ rest]
  | fuel + 1, acc, c :: cs =>
    if sep.isPrefixOf (c :: cs) then
      acc.reverse :: jsSplitSeqAux sep fuel [] ((c :: cs).drop sep.length)
    else jsSplitSeqAux sep fuel (c :: acc) cs

/-- JavaScript split on a multi-character separator string (split('\n\n')):
non-overlapping occurrences are found left to right. -/
def jsSplitSeq (sep s : Str) : List Str := jsSplitSeqAux sep (s.length + 1) [] s

/-- Sentence-boundary test backing the regex class [.!?]. -/
def isSentencePunct (c : Char) : Bool := c = '.' || c = '!' || c = '?'

/-- Fuel-driven worker for `jsSplitSentences`: at each position a separator
is a maximal run of sentence punctuation followed by at least one whitespace
character (the greedy match of the regex [.!?]+\s+). -/
def jsSplitSentencesAux : Nat → Str → Str → List Str
  | _, acc, [] => [acc.reverse]
  | 0, acc, rest => [acc.reverse ++ rest]
  | fuel + 1, acc, c :: cs =>
    if isSentencePunct c then
      let puncts := (c :: cs).takeWhile isSentencePunct
      let afterP := (c :: cs).drop puncts.length
      let wsRun := afterP.takeWhile isWsChar
      if wsRun ≠ [] then
        acc.reverse :: jsSplitSentencesAux fuel [] (afterP.drop wsRun.length)
      else jsSplitSentencesAux fuel (c :: acc) cs
    else jsSplitSentencesAux fuel (c :: acc) cs

/-- JavaScript split(/[.!?]+\s+/), used by the PDF chunker when a document
has no blank-line paragraph breaks. -/
def jsSplitSentences (s : Str) : List Str := jsSplitSentencesAux (s.length + 1) [] s

/-- Deduplication keeping first occurrences with an accumulator of already
seen elements: the behaviour of new Set(...) iterated in insertion order. -/
def dedupFirstAux [BEq α] (seen : List α) : List α → List α
  | [] => []
  | x :: xs =>
    if seen.contains x then dedupFirstAux seen xs
    else x :: dedupFirstAux (x :: seen) xs

/-- Deduplication keeping first occurrences (JavaScript Set semantics). -/
def dedupFirst [BEq α] (l : List α) : List α := dedupFirstAux [] l

/-- Stable insertion of `x` into a list already sorted by the strict
comparator `lt`: `x` goes before the first element it beats, hence after
every earlier element that ties with it. -/
def insertSorted (lt : α → α → Bool) (x : α) : List α → List α
  | [] => [x]
  | y :: ys => if lt x y then x :: y :: ys else y :: insertSorted lt x ys

/-- JavaScript Array.prototype.sort with comparator-induced strict order
`lt` (lt a b means the comparator puts a strictly before b): a stable sort,
modelled as left-to-right insertion after ties. -/
def jsSortBy (lt : α → α → Bool) (l : List α) : List α :=
  l.foldl (fun acc x => insertSorted lt x acc) []

/-- The strict descending comparator (a, b) => f b - f a used by the
sources for score-descending sorts. -/
def ltByDesc (f : α → ℚ) (a b : α) : Bool := decide (f b < f a)

/-- A JavaScript loop body applied to every element in order, where the
body may throw: the first thrown error aborts the whole loop and surfaces
to the enclosing catch. -/
def mapExcept (f : α → Except ε β) : List α → Except ε (List β)
  | [] => .ok []
  | x :: xs =>
    match f x with
    | .error e => .error e
    | .ok y =>
      match mapExcept f xs with
      | .error e => .error e
      | .ok ys => .ok (y :: ys)

example : jsSplitWs "  a b ".data = ["".data, "a".data, "b".data, "".data] := by decide
example : jsSplitChar '\n' "a\n\nb".data = ["a".data, "".data, "b".data] := by decide
example : jsSplitSeq "\n\n".data "a\n\nb\n\n".data = ["a".data, "b".data, "".data] := by decide
example : jsSplitSentences "Hi. There!  Ok..".data = ["Hi".data, "There".data, "Ok..".data] := by
  decide
example : jsTrim "  ab c \n".data = "ab c".data := by decide
example : jsIncludes "bc".data "abcd".data = true := by decide
example : jsIndexOf "cd".data "abcd".data = some 2 := by decide
example : dedupFirst [1, 2, 2, 3, 1] = [1, 2, 3] := by decide
example : jsSortBy (ltByDesc (fun n : ℕ × ℚ => n.2)) [(1, 3), (2, 5), (3, 3)] =
    [(2, 5), (1, 3), (3, 3)] := by with_unfolding_all decide

/-! ## Cross-encoder re-ranker (src/lib/crossEncoder.ts)

The "cross-encoder" is a rule-based lexical scorer. Its only genuinely
fallible step, scoring a chunk whose metadata carries a truthy non-string
title (metadata is typed any in the source), is modelled with
`Except Unit`: calling toLowerCase on such a title throws a TypeError,
which the batch-level catch in reRankChunks turns into a whole-batch
degradation to the original scores. -/

/-- The title slot of a chunk's metadata bag (typed any in the source):
absent/null/undefined (falsy, skipped), a string, or a truthy non-string
value on which .toLowerCase() throws. An empty string title is falsy in
JavaScript and is also skipped. -/
inductive MetaTitle where
  | absent
  | str (t : Str)
  | nonString
deriving DecidableEq

/-- Input to reRankChunks: id, content, the lexical relevanceScore, and the
metadata title slot (the only metadata field the scorer reads). -/
structure ChunkForRank where
  id : Nat
  content : Str
  relevanceScore : ℚ
  metaTitle : MetaTitle
deriving DecidableEq

/-- ReRankingResult of crossEncoder.ts (the metadata echo is dropped; the
scoring factors can be recomputed from the inputs). -/
structure ReRankingResult where
  chunkId : Nat
  content : Str
  originalScore : ℚ
  crossEncoderScore : ℚ
  finalScore : ℚ
deriving DecidableEq

/-- The eight per-chunk scoring factors of performEnhancedLexicalRanking. -/
structure ScoringFactors where
  exactMatch : ℚ
  phraseMatch : ℚ
  termFrequency : ℚ
  termProximity : ℚ
  positionBoost : ℚ
  lengthPenalty : ℚ
  titleBoost : ℚ
  bigramMatch : ℚ
deriving DecidableEq

/-- The sum Object.values(scoringFactors).reduce((sum, score) => sum + score, 0). -/
def bonusSum (f : ScoringFactors) : ℚ :=
  f.exactMatch + f.phraseMatch + f.termFrequency + f.termProximity +
    f.positionBoost + f.lengthPenalty + f.titleBoost + f.bigramMatch

/-- The stop-word set of crossEncoder.extractQueryTerms. -/
def stopWordsCE : List Str :=
  (["the", "a", "an", "and", "or", "but", "in", "on", "at", "to", "for", "of", "with", "by",
    "what", "which", "who", "where", "when", "why", "how", "is", "are", "was", "were", "be",
    "been", "being", "have", "has", "had", "do", "does", "did", "will", "would", "could",
    "should", "may", "might", "can", "this", "that", "these", "those", "i", "you", "he",
    "she", "it", "we", "they"]).map String.data

/-- crossEncoder.extractQueryTerms: lower-case, replace non-word non-space
characters by spaces, split on whitespace, keep words longer than 2 that are
not stop words, cap at 20 (no deduplication in this variant). -/
def extractQueryTermsCE (text : Str) : List Str :=
  ((jsSplitWs ((jsToLower text).map fun ch =>
      if isWordChar ch || isWsChar ch then ch else ' ')).filter fun word =>
    decide (word.length > 2) && !stopWordsCE.contains word).take 20

/-- crossEncoder.generateBigrams: adjacent term pairs joined by a space. -/
def generateBigrams (terms : List Str) : List Str :=
  (List.range (terms.length - 1)).map fun i =>
    terms.getD i [] ++ ' ' :: terms.getD (i + 1) []

/-- Fuel-driven worker extracting the quoted phrases of a query, following
the left-to-right non-overlapping matches of the regex "([^"]+)". -/
def extractQuotedAux : Nat → Str → List Str
  | 0, _ => []
  | _, [] => []
  | fuel + 1, c :: rest =>
    if c = '"' then
      let inner := rest.takeWhile fun ch => ch ≠ '"'
      if inner ≠ [] && rest.drop inner.length ≠ [] then
        inner :: extractQuotedAux fuel (rest.drop (inner.length + 1))
      else extractQuotedAux fuel rest
    else extractQuotedAux fuel rest

/-- crossEncoder.extractPhrases: quoted phrases plus every 3-word window of
the query, keeping only phrases longer than 5 characters. -/
def extractPhrases (query : Str) : List Str :=
  let quoted := extractQuotedAux (query.length + 1) query
  let words := jsSplitWs query
  let windows := (List.range (words.length - 2)).map fun i =>
    List.intercalate [' '] ((words.drop i).take 3)
  (quoted ++ windows).filter fun phrase => decide (phrase.length > 5)

/-- The number of matches of new RegExp('\\b' + term + '\\b', 'gi') in
`content`: positions where the term occurs delimited by non-word characters
or the ends of the string. Both term and content are already lower-cased by
the caller; as the term consists of word characters, \b-delimited matches
cannot overlap, so counting positions equals counting the regex's global
matches. -/
def countTermOccurrences (term content : Str) : Nat :=
  (List.range content.length).countP fun i =>
    term.isPrefixOf (content.drop i)
    && (decide (i = 0) || !isWordChar (content.getD (i - 1) ' '))
    && (decide (i + term.length ≥ content.length) || !isWordChar (content.getD (i + term.length) ' '))

/-- crossEncoder.calculateTermProximity: for each adjacent pair of query
terms both present, award ((100 - distance) / 100) * 8 when the first
occurrences are within 100 characters; capped at 20. -/
def calculateTermProximity (content : Str) (queryTerms : List Str) : ℚ :=
  let proximityScore := (List.range (queryTerms.length - 1)).foldl
    (fun acc i =>
      let term1 := queryTerms.getD i []
      let term2 := queryTerms.getD (i + 1) []
      match jsIndexOf term1 content, jsIndexOf term2 content with
      | some i1, some i2 =>
        let distance := max i1 i2 - min i1 i2
        if distance < 100 then acc + ((100 - (distance : ℚ)) / 100) * 8 else acc
      | _, _ => acc)
    0
  min proximityScore 20

/-- crossEncoder.calculatePositionBoost: for each query term found, award
(1 - index / contentLength) * 5; capped at 15. -/
def calculatePositionBoost (content : Str) (queryTerms : List Str) : ℚ :=
  let positionScore := queryTerms.foldl
    (fun acc term =>
      match jsIndexOf term content with
      | some index => acc + (1 - (index : ℚ) / (content.length : ℚ)) * 5
      | none => acc)
    0
  min positionScore 15

/-- crossEncoder.calculateLengthPenalty on the raw (not lower-cased) chunk
content. -/
def calculateLengthPenalty (content : Str) : ℚ :=
  let length := content.length
  let words := (jsSplitWs content).length
  if length < 50 || words < 10 then -5
  else if length > 1500 || words > 300 then -3
  else if 100 ≤ length && length ≤ 800 && 20 ≤ words && words ≤ 150 then 3
  else 0

/-- The title boost: zero for an absent, empty (falsy) or unreadable title,
else (matching terms / total terms) x 10. In the source the division
titleMatches / queryTerms.length yields NaN when the query has no extracted
terms; this embedding's rational division yields 0 there, so theorems about
the title factor assume at least one query term where the distinction
matters. -/
def titleBoostOf (queryTerms : List Str) : MetaTitle → ℚ
  | .absent => 0
  | .nonString => 0
  | .str t =>
    if t = [] then 0
    else
      let titleMatches := (queryTerms.filter fun term => jsIncludes term (jsToLower t)).length
      ((titleMatches : ℚ) / (queryTerms.length : ℚ)) * 10

/-- The eight scoring factors of one chunk in
performEnhancedLexicalRanking, as pure arithmetic. -/
def computeScoringFactorsPure (query : Str) (queryTerms queryBigrams : List Str)
    (chunk : ChunkForRank) : ScoringFactors :=
  let content := jsToLower chunk.content
  { exactMatch := if jsIncludes (jsToLower query) content then 25 else 0
    phraseMatch :=
      let phrases := extractPhrases query
      phrases.foldl
        (fun acc phrase =>
          if jsIncludes (jsToLower phrase) content then acc + 15 / (phrases.length : ℚ) else acc)
        0
    termFrequency := queryTerms.foldl
      (fun acc term =>
        let occ := countTermOccurrences term content
        if occ > 0 then acc + min ((occ : ℚ) * 3) 12 else acc)
      0
    termProximity := calculateTermProximity content queryTerms
    positionBoost := calculatePositionBoost content queryTerms
    lengthPenalty := calculateLengthPenalty chunk.content
    titleBoost := titleBoostOf queryTerms chunk.metaTitle
    bigramMatch := queryBigrams.foldl
      (fun acc bigram => if jsIncludes (jsToLower bigram) content then acc + 8 else acc)
      0 }

/-- The scoring factors of one chunk, with the one fallible step of the
source made explicit: reading the title of a metadata bag whose title slot
holds a truthy non-string throws a TypeError at .toLowerCase (aborting the
chunk's factor computation, whose partial results the batch-level catch
discards); otherwise all eight factors are computed. -/
def computeScoringFactors (query : Str) (queryTerms queryBigrams : List Str)
    (chunk : ChunkForRank) : Except Unit ScoringFactors :=
  match chunk.metaTitle with
  | .nonString => .error ()
  | _ => .ok (computeScoringFactorsPure query queryTerms queryBigrams chunk)

/-- Scoring of one chunk: enhancedScore = min(relevanceScore + bonus, 100),
recorded as both crossEncoderScore and finalScore. -/
def scoreChunkCE (query : Str) (queryTerms queryBigrams : List Str)
    (chunk : ChunkForRank) : Except Unit ReRankingResult :=
  (computeScoringFactors query queryTerms queryBigrams chunk).map fun factors =>
    let enhancedScore := min (chunk.relevanceScore + bonusSum factors) 100
    { chunkId := chunk.id, content := chunk.content,
      originalScore := chunk.relevanceScore,
      crossEncoderScore := enhancedScore, finalScore := enhancedScore }

/-- crossEncoder.performEnhancedLexicalRanking: score every chunk, then sort
descending by finalScore. An exception while scoring any chunk aborts the
whole map (JavaScript semantics), surfacing as an error of the batch. -/
def performEnhancedLexicalRanking (query : Str) (chunks : List ChunkForRank) :
    Except Unit (List ReRankingResult) :=
  let queryTerms := extractQueryTermsCE query
  let queryBigrams := generateBigrams queryTerms
  (mapExcept (scoreChunkCE query queryTerms queryBigrams) chunks).map
    (jsSortBy (ltByDesc ReRankingResult.finalScore))

/-- The degraded result of one chunk when re-ranking fails: every score
falls back to the chunk's input relevanceScore. -/
def degradedResult (chunk : ChunkForRank) : ReRankingResult :=
  { chunkId := chunk.id, content := chunk.content,
    originalScore := chunk.relevanceScore,
    crossEncoderScore := chunk.relevanceScore, finalScore := chunk.relevanceScore }

/-- crossEncoder.reRankChunks: empty input gives an empty batch; otherwise
the enhanced ranking runs under a batch-level try/catch whose handler maps
every chunk of the batch to its original score, in input order. -/
def reRankChunks (query : Str) (chunks : List ChunkForRank) : List ReRankingResult :=
  if chunks.length = 0 then []
  else
    match performEnhancedLexicalRanking query chunks with
    | .ok results => results
    | .error _ => chunks.map degradedResult

/-! ## Corrective RAG (src/lib/correctiveRAG.ts)

The external reasoning service (Ollama or Gemini chat) is abstracted as a
grading oracle: for the i-th chunk it either returns the textual reply or
throws. The prompt text sent to the service does not influence the
pipeline's control flow and is not modelled. -/

/-- The three relevance grades. -/
inductive GradeLabel where
  | relevant
  | partially_relevant
  | irrelevant
deriving DecidableEq

/-- The result of parseRelevanceGrade (the source omits reasoning here;
the caller adds it). -/
structure ParsedGrade where
  relevant : Bool
  confidence : ℚ
  grade : GradeLabel
deriving DecidableEq

/-- RelevanceGrade of correctiveRAG.ts. -/
structure RelevanceGrade where
  relevant : Bool
  confidence : ℚ
  reasoning : Str
  grade : GradeLabel
deriving DecidableEq

/-- correctiveRAG.parseRelevanceGrade: keyword tests on the lower-cased,
trimmed reply, in the source's branch order. Note that every keyword
contains the substring "relevant", so the first branch fires only for a
reply free of "partially" and of "irrelevant". -/
def parseRelevanceGrade (response : Str) : ParsedGrade :=
  let lowerResponse := jsToLower (jsTrim response)
  if jsIncludes "relevant".data lowerResponse
      && !jsIncludes "partially".data lowerResponse
      && !jsIncludes "irrelevant".data lowerResponse then
    { relevant := true, confidence := 0.9, grade := .relevant }
  else if jsIncludes "partially_relevant".data lowerResponse
      || jsIncludes "partially relevant".data lowerResponse then
    { relevant := true, confidence := 0.6, grade := .partially_relevant }
  else if jsIncludes "irrelevant".data lowerResponse then
    { relevant := false, confidence := 0.8, grade := .irrelevant }
  else
    { relevant := true, confidence := 0.4, grade := .partially_relevant }

/-- A chunk as performCorrectiveRAG receives it (typed any in the source).
When enhancedSearch passes RAGSearchResult values, the direct content field
is absent and the nested chunk.content carries the text; the metadata title
slot is likewise absent there. -/
structure CRChunk where
  directContent : Option Str
  nestedContent : Option Str
  metaTitle : Option Str
deriving DecidableEq

/-- The JavaScript expression chunk?.content || chunk?.chunk?.content || '':
first truthy (nonempty) alternative. -/
def crContent (c : CRChunk) : Str :=
  match c.directContent with
  | some s => if s ≠ [] then s else (c.nestedContent.getD [])
  | none => c.nestedContent.getD []

/-- The grading oracle: the reasoning service's textual reply for the i-th
chunk, or a thrown error. -/
def GradingOracle := Nat → Except Unit Str

/-- Reasoning text of the no-content default grade. -/
def noContentMsg : Str := "No content available, defaulting to partially relevant".data

/-- Reasoning text of the per-chunk error default grade. -/
def gradeErrorMsg : Str := "Error in evaluation, defaulting to partially relevant".data

/-- One iteration of the grading loop of
correctiveRAG.gradeChunkRelevance, for the chunk at position i: a chunk
without content is graded partially_relevant at confidence 0.5 without
consulting the service; a thrown service call is caught per chunk and
likewise yields partially_relevant at confidence 0.5; otherwise the reply
is parsed and recorded with the trimmed reply as reasoning. -/
def gradeOne (oracle : GradingOracle) (i : Nat) (chunk : CRChunk) : RelevanceGrade :=
  if crContent chunk = [] then
    { relevant := true, confidence := 0.5, reasoning := noContentMsg,
      grade := .partially_relevant }
  else
    match oracle i with
    | .ok response =>
      let g := parseRelevanceGrade response
      { relevant := g.relevant, confidence := g.confidence,
        reasoning := jsTrim response, grade := g.grade }
    | .error _ =>
      { relevant := true, confidence := 0.5, reasoning := gradeErrorMsg,
        grade := .partially_relevant }

/-- The grading loop from a given position onward. -/
def gradeChunksFrom (oracle : GradingOracle) (i : Nat) : List CRChunk → List RelevanceGrade
  | [] => []
  | chunk :: rest => gradeOne oracle i chunk :: gradeChunksFrom oracle (i + 1) rest

/-- correctiveRAG.gradeChunkRelevance: one grade per chunk, in order. -/
def gradeChunkRelevance (oracle : GradingOracle) (chunks : List CRChunk) :
    List RelevanceGrade :=
  gradeChunksFrom oracle 0 chunks

/-- CorrectiveRAGResult of correctiveRAG.ts (the retrievedContent and
webContent echoes are dropped; finalContent carries the web fallback text
when one is produced). -/
structure CorrectiveRAGResult where
  useRetrievedContent : Bool
  webSearchPerformed : Bool
  finalContent : Str
  correctionReason : Option Str
  relevanceGrades : Option (List RelevanceGrade)
deriving DecidableEq

/-- Options of performCorrectiveRAG that influence its control flow. -/
structure CROptions where
  relevanceThreshold : ℚ := 0.4
  fallbackToWeb : Bool := true
deriving DecidableEq

/-- The canned fallback message, up to the interpolated query. -/
def webFallbackPrefix : Str :=
  "I apologize, but the documents in my knowledge base don't contain sufficient information to answer your question about \"".data

/-- The canned fallback message, after the interpolated query. -/
def webFallbackSuffix : Str :=
  ("\". \n\nTo get the most current and comprehensive information, I recommend:\n\n" ++
   "1. Searching on reliable websites like Wikipedia, official documentation, or reputable news sources\n" ++
   "2. Checking the latest research papers or academic sources if it's a technical topic\n" ++
   "3. Looking for official government or institutional websites for authoritative information\n\n" ++
   "If you can provide me with specific documents or URLs related to your question, I can analyze that content for you instead.").data

/-- correctiveRAG.performWebSearchFallback: no live search is wired, so the
try body always returns the canned guidance message naming the query, with
webSearchPerformed set (the catch path is unreachable in the model because
the body cannot throw). The query optimization the source computes on this
path is dead code (its result is unused) and is not modelled. -/
def performWebSearchFallback (query : Str) : CorrectiveRAGResult :=
  { useRetrievedContent := false, webSearchPerformed := true,
    finalContent := webFallbackPrefix ++ query ++ webFallbackSuffix,
    correctionReason := some "Knowledge base content insufficient, recommended web search".data,
    relevanceGrades := none }

/-- correctiveRAG.determineCorrectionReason. -/
def determineCorrectionReason (grades : List RelevanceGrade) (overallRelevance : ℚ) : Str :=
  let irrelevantCount := (grades.filter fun g => g.grade = .irrelevant).length
  let relevantCount := (grades.filter fun g => g.grade = .relevant).length
  if irrelevantCount = grades.length then
    "All retrieved documents are irrelevant to the query".data
  else if overallRelevance < 0.3 then
    "Very low relevance score - most documents don't address the query".data
  else if relevantCount = 0 then
    "No highly relevant documents found - only partial matches available".data
  else if overallRelevance < 0.6 then
    "Insufficient relevant content - majority of documents are not relevant".data
  else
    "Relevance threshold not met - seeking better sources".data

/-- correctiveRAG.formatRetrievedContent. Note the source reads the direct
chunk.content and chunk.metadata?.title here: for RAGSearchResult inputs
both are absent, so the title falls back to Document and the interpolated
content renders as the string undefined. -/
def formatRetrievedContent (chunks : List CRChunk) : Str :=
  if chunks.length = 0 then "No relevant content found in knowledge base.".data
  else
    List.intercalate "\n\n---\n\n".data
      (chunks.enum.map fun (index, chunk) =>
        let title := match chunk.metaTitle with
          | some t => if t ≠ [] then t else "Document".data
          | none => "Document".data
        let shown := match chunk.directContent with
          | some s => s
          | none => "undefined".data
        "Source ".data ++ Nat.toDigits 10 (index + 1) ++ " (".data ++ title ++
          "):\n".data ++ shown)

/-- correctiveRAG.performCorrectiveRAG: with no retrieved chunks, fall back
immediately; otherwise grade every chunk, aggregate, and either accept the
retrieved content (overallRelevance at or above the threshold and some
relevant grade with confidence above 0.8), fall back to web content, or,
with fallback disabled, return the retrieved content flagged with a
correction reason. The outer try/catch of the source is unreachable in the
model: every failure of the grading service is already caught per chunk. -/
def performCorrectiveRAG (oracle : GradingOracle) (query : Str)
    (retrievedChunks : List CRChunk) (options : CROptions) : CorrectiveRAGResult :=
  if retrievedChunks.length = 0 then performWebSearchFallback query
  else
    let relevanceGrades := gradeChunkRelevance oracle retrievedChunks
    let relevantChunks := relevanceGrades.filter fun grade =>
      grade.grade = .relevant ∨ grade.grade = .partially_relevant
    let overallRelevance : ℚ := (relevantChunks.length : ℚ) / (retrievedChunks.length : ℚ)
    let hasHighQualityRelevant := relevanceGrades.any fun grade =>
      grade.grade = .relevant && decide (grade.confidence > 0.8)
    if overallRelevance ≥ options.relevanceThreshold && hasHighQualityRelevant then
      { useRetrievedContent := true, webSearchPerformed := false,
        finalContent := formatRetrievedContent retrievedChunks,
        correctionReason := none, relevanceGrades := some relevanceGrades }
    else
      let correctionReason := determineCorrectionReason relevanceGrades overallRelevance
      if options.fallbackToWeb then
        let webSearchResult := performWebSearchFallback query
        { useRetrievedContent := false, webSearchPerformed := true,
          finalContent := webSearchResult.finalContent,
          correctionReason := some correctionReason,
          relevanceGrades := some relevanceGrades }
      else
        { useRetrievedContent := true, webSearchPerformed := false,
          finalContent := formatRetrievedContent retrievedChunks,
          correctionReason := some correctionReason,
          relevanceGrades := some relevanceGrades }

/-! ## RAG service (src/lib/rag.ts)

The Prisma store is modelled as an explicit state: a list of documents and
a list of chunks with increasing ids; orderBy createdAt desc is a stable
descending sort on the stored creation stamp. The SHA-256 content hash is
represented by the content itself, an injective stand-in: the claims rely
only on the hash being deterministic and collision-free. For storage-layer
failures the chunk queries run through an `Except` oracle (`ChunkDB`). -/

/-- The chunking constants of RAGService. -/
def CHUNK_SIZE : Nat := 1000

/-- Overlap constant (words of overlap are CHUNK_OVERLAP / 10). -/
def CHUNK_OVERLAP : Nat := 200

/-- Default result cap of RAGService.search. -/
def MAX_SEARCH_RESULTS : Nat := 5

/-- The metadata a chunk carries (the fields read by the pipeline: title
and source copied from the owning document, the chunk's index, its type
tag, and the word count the PDF chunker computes). -/
structure ChunkMeta where
  title : Str
  source : Str
  chunkIndex : Nat
  type : Str
  wordCount : Option Nat
deriving DecidableEq

/-- One chunk produced by the chunker, before persistence. -/
structure ChunkPiece where
  content : Str
  meta : ChunkMeta
deriving DecidableEq

/-- Document-level ingestion metadata (the field the chunker reads). -/
structure DocMeta where
  fileType : Option Str
deriving DecidableEq

/-- A stored document. -/
structure Document where
  id : Nat
  title : Str
  content : Str
  source : Str
  contentHash : Str
deriving DecidableEq

/-- A stored chunk row. -/
structure DBChunk where
  id : Nat
  documentId : Nat
  content : Str
  meta : ChunkMeta
  createdAt : Nat
deriving DecidableEq

/-- The store state. -/
structure RAGState where
  documents : List Document
  chunks : List DBChunk
  nextDocId : Nat
  nextChunkId : Nat
deriving DecidableEq

/-- A chunk inside a search result (metadata title and source overridden by
the owning document's). -/
structure RChunk where
  id : Nat
  documentId : Nat
  content : Str
  meta : ChunkMeta
deriving DecidableEq

/-- RAGSearchResult of rag.ts. -/
structure RAGSearchResult where
  chunk : RChunk
  similarity : ℚ
  relevanceScore : ℚ
deriving DecidableEq

/-- The stop-word set of RAGService.extractKeywords (the cross-encoder's
variant additionally drops pronouns). -/
def stopWordsSearch : List Str :=
  (["the", "a", "an", "and", "or", "but", "in", "on", "at", "to", "for", "of", "with", "by",
    "what", "which", "who", "where", "when", "why", "how", "is", "are", "was", "were", "be",
    "been", "being", "have", "has", "had", "do", "does", "did", "will", "would", "could",
    "should", "may", "might", "can", "this", "that", "these", "those"]).map String.data

/-- RAGService.extractKeywords: lower-case, strip punctuation to spaces,
split on whitespace, keep non-stop-words longer than 2 characters,
deduplicate keeping first occurrences, cap at 15. -/
def extractKeywords (query : Str) : List Str :=
  let words := (jsSplitWs ((jsToLower query).map fun ch =>
      if isWordChar ch || isWsChar ch then ch else ' ')).filter fun word =>
    decide (word.length > 2) && !stopWordsSearch.contains word
  (dedupFirst words).take 15

/-- RAGService.calculateTextSimilarity: Jaccard index of the whitespace
word sets of the lower-cased query and text. -/
def calculateTextSimilarity (query text : Str) : ℚ :=
  let queryWords := jsSplitWs (jsToLower query)
  let textWords := jsSplitWs (jsToLower text)
  let querySet := dedupFirst queryWords
  let textSet := dedupFirst textWords
  let inter := dedupFirst (querySet.filter fun x => textSet.contains x)
  let union := dedupFirst (querySet ++ textSet)
  (inter.length : ℚ) / (union.length : ℚ)

/-- The document-analysis keywords of the query boost regex
(analyze|analysis|review|rate|rating|improve|evaluate|assess|check). -/
def analysisWords : List Str :=
  (["analyze", "analysis", "review", "rate", "rating", "improve", "evaluate",
    "assess", "check"]).map String.data

/-- An empty document record, standing in for a dangling document join
(unreachable when the state is well formed). -/
def emptyDocument : Document := { id := 0, title := [], content := [], source := [], contentHash := [] }

/-- Relevance scoring of one retrieved chunk in RAGService.search:
Jaccard similarity scaled to 100, boosted for document-analysis queries on
non-trivial chunks (x1.3), PDF-typed chunks (x1.1), word counts above 50
(x1.05) and per distinct matching keyword (x(1 + 0.1 x matches)), then
capped at 100. -/
def scoreSearchChunk (docs : List Document) (query : Str) (keywords : List Str)
    (c : DBChunk) : RAGSearchResult :=
  let similarity := calculateTextSimilarity query c.content
  let score0 : ℚ := similarity * 100
  let isAnalysisQuery := analysisWords.any fun w => jsIncludes w (jsToLower query)
  let score1 := if isAnalysisQuery && decide (c.content.length > 100) then score0 * 1.3 else score0
  let score2 := if jsIncludes "pdf_chunk".data c.meta.type then score1 * 1.1 else score1
  let score3 := match c.meta.wordCount with
    | some wc => if wc > 50 then score2 * 1.05 else score2
    | none => score2
  let keywordMatches := (keywords.filter fun keyword =>
    jsIncludes (jsToLower keyword) (jsToLower c.content)).length
  let score4 := if keywordMatches > 0 then score3 * (1 + (keywordMatches : ℚ) * 0.1) else score3
  let doc := (docs.find? fun d => d.id == c.documentId).getD emptyDocument
  { chunk := { id := c.id, documentId := c.documentId, content := c.content,
               meta := { c.meta with title := doc.title, source := doc.source } },
    similarity := similarity,
    relevanceScore := min score4 100 }

/-- prisma.documentChunk.findMany with a content predicate, ordered by
createdAt descending, limited by take. -/
def prismaFindChunks (st : RAGState) (pred : DBChunk → Bool) (takeN : Nat) : List DBChunk :=
  (jsSortBy (fun a b => decide (b.createdAt < a.createdAt)) (st.chunks.filter pred)).take takeN

/-- The store-query oracle: a predicate-and-take chunk query that may throw
(a storage-layer failure). -/
def ChunkDB := (DBChunk → Bool) → Nat → Except Unit (List DBChunk)

/-- The healthy store: queries never throw and answer from the state. -/
def dbOf (st : RAGState) : ChunkDB := fun pred n => .ok (prismaFindChunks st pred n)

/-- Deduplication of retrieved chunks by id, keeping first occurrences
(the filter-by-findIndex idiom of the source). -/
def dedupChunksAux (seen : List Nat) : List DBChunk → List DBChunk
  | [] => []
  | c :: cs =>
    if seen.contains c.id then dedupChunksAux seen cs
    else c :: dedupChunksAux (c.id :: seen) cs

/-- Deduplication of retrieved chunks by id. -/
def dedupChunks (l : List DBChunk) : List DBChunk := dedupChunksAux [] l

/-- The document filter of RAGService.search: Prisma only narrows to the
selected documents when the filter list is present and nonempty. -/
def inDocFilter (documentIds : Option (List Nat)) (c : DBChunk) : Bool :=
  match documentIds with
  | some ids => if ids.length > 0 then ids.contains c.documentId else true
  | none => true

/-- The search strategies: the full lower-cased query as a phrase, then one
containment strategy per extracted keyword. -/
def searchStrategies (query : Str) (keywords : List Str) : List (DBChunk → Bool) :=
  (fun c => jsIncludes (jsToLower query) (jsToLower c.content))
    :: keywords.map fun keyword => fun c => jsIncludes (jsToLower keyword) (jsToLower c.content)

/-- The pure tail of RAGService.search once all store queries returned:
deduplicate by chunk id, score, sort descending by relevanceScore and keep
the top limit results. -/
def searchRank (docs : List Document) (query : Str) (keywords : List Str) (limit : Nat)
    (retrieved : List DBChunk) : List RAGSearchResult :=
  (jsSortBy (ltByDesc RAGSearchResult.relevanceScore)
    ((dedupChunks retrieved).map (scoreSearchChunk docs query keywords))).take limit

/-- The body of RAGService.search, up to the try/catch: keyword extraction,
one store query per strategy (each filtered to the selected documents and
capped at 3 x limit), then the pure ranking tail. A store failure anywhere
aborts the body. -/
def searchBody (db : ChunkDB) (docs : List Document) (query : Str) (limit : Nat)
    (documentIds : Option (List Nat)) : Except Unit (List RAGSearchResult) :=
  let keywords := extractKeywords query
  (mapExcept (fun strat => db (fun c => inDocFilter documentIds c && strat c) (limit * 3))
      (searchStrategies query keywords)).map
    (fun perStrategy => searchRank docs query keywords limit perStrategy.flatten)

/-- RAGService.search with an explicit store oracle: the catch-all returns
the empty list on any storage failure. -/
def searchWith (db : ChunkDB) (docs : List Document) (query : Str) (limit : Nat)
    (documentIds : Option (List Nat)) : List RAGSearchResult :=
  match searchBody db docs query limit documentIds with
  | .ok results => results
  | .error _ => []

/-- RAGService.search against a healthy store state. -/
def search (st : RAGState) (query : Str) (limit : Nat)
    (documentIds : Option (List Nat)) : List RAGSearchResult :=
  searchWith (dbOf st) st.documents query limit documentIds

/-- The word count the PDF chunker stores: content.trim().split(/\s+/).length
applied to the already trimmed chunk text. -/
def jsWordCount (s : Str) : Nat := (jsSplitWs s).length

/-- The flush idiom of both chunking loops: when the accumulated text is
nonempty after trimming, push it (via the given piece builder) and advance
the chunk index; otherwise leave the output untouched. -/
def flushInto (mk : Str → Nat → ChunkPiece) (chunks : List ChunkPiece) (cur : Str) (idx : Nat) :
    List ChunkPiece × Nat :=
  if jsTrim cur ≠ [] then (chunks ++ [mk (jsTrim cur) idx], idx + 1) else (chunks, idx)

/-- A text_chunk piece of the line-based strategy. -/
def textPiece (title source : Str) (content : Str) (chunkIndex : Nat) : ChunkPiece :=
  ⟨content, { title, source, chunkIndex, type := "text_chunk".data, wordCount := none }⟩

/-- One step of the line loop of RAGService.splitIntoChunks: state is
(chunks so far, currentChunk, chunkIndex). When the next line would push
the accumulation past CHUNK_SIZE, the trimmed accumulation is flushed as a
text_chunk and the next accumulation is seeded with the last
CHUNK_OVERLAP / 10 space-separated words, a space, and the line; otherwise
the line is appended after a newline. -/
def lineStep (title source : Str) (st : List ChunkPiece × Str × Nat) (line : Str) :
    List ChunkPiece × Str × Nat :=
  let (chunks, currentChunk, chunkIndex) := st
  if currentChunk.length + line.length > CHUNK_SIZE then
    let flushed := flushInto (textPiece title source) chunks currentChunk chunkIndex
    let words := jsSplitChar ' ' currentChunk
    let overlapWords := words.drop (words.length - CHUNK_OVERLAP / 10)
    (flushed.1, List.intercalate [' '] overlapWords ++ ' ' :: line, flushed.2)
  else
    (chunks, currentChunk ++ (if currentChunk ≠ [] then '\n' :: line else line), chunkIndex)

/-- A pdf_chunk piece with its computed word count. -/
def pdfPiece (title source : Str) (content : Str) (chunkIndex : Nat) : ChunkPiece :=
  ⟨content, { title, source, chunkIndex, type := "pdf_chunk".data,
              wordCount := some (jsWordCount content) }⟩

/-- A pdf_chunk_large piece with its computed word count. -/
def pdfLargePiece (title source : Str) (content : Str) (chunkIndex : Nat) : ChunkPiece :=
  ⟨content, { title, source, chunkIndex, type := "pdf_chunk_large".data,
              wordCount := some (jsWordCount content) }⟩

/-- One step of the word loop that splits an oversized section in
RAGService.splitPDFContent: state is (chunks so far, wordChunk, chunkIndex);
oversized accumulations are flushed as pdf_chunk_large pieces. -/
def pdfWordStep (title source : Str) (st : List ChunkPiece × Str × Nat) (word : Str) :
    List ChunkPiece × Str × Nat :=
  let (chunks, wordChunk, chunkIndex) := st
  if wordChunk.length + word.length > CHUNK_SIZE then
    let flushed := flushInto (pdfLargePiece title source) chunks wordChunk chunkIndex
    (flushed.1, word, flushed.2)
  else
    (chunks, wordChunk ++ (if wordChunk ≠ [] then ' ' :: word else word), chunkIndex)

/-- One step of the section loop of RAGService.splitPDFContent: a section
that still fits is appended after a blank line; otherwise the accumulation
is flushed as a pdf_chunk and the section either becomes the new
accumulation or, when itself oversized, is split on spaces by the word
loop (whose leftover becomes the new accumulation). -/
def pdfSectionStep (title source : Str) (st : List ChunkPiece × Str × Nat) (sec : Str) :
    List ChunkPiece × Str × Nat :=
  let (chunks, currentChunk, chunkIndex) := st
  let sectionText := jsTrim sec
  if currentChunk.length + sectionText.length > CHUNK_SIZE then
    let flushed := flushInto (pdfPiece title source) chunks currentChunk chunkIndex
    if sectionText.length > CHUNK_SIZE then
      (jsSplitChar ' ' sectionText).foldl (pdfWordStep title source) (flushed.1, [], flushed.2)
    else (flushed.1, sectionText, flushed.2)
  else
    (chunks, currentChunk ++ (if currentChunk ≠ [] then '\n' :: '\n' :: sectionText else sectionText),
     chunkIndex)

/-- RAGService.splitPDFContent: split on blank lines (falling back to
sentence boundaries when that yields a single section), accumulate sections
up to CHUNK_SIZE, flush as pdf_chunk, splitting oversized sections into
pdf_chunk_large pieces on word boundaries; the trailing accumulation is
flushed at the end. -/
def splitPDFContent (content title source : Str) : List ChunkPiece :=
  let sections0 := (jsSplitSeq "\n\n".data content).filter fun s => jsTrim s ≠ []
  let sections :=
    if sections0.length = 1 then (jsSplitSentences content).filter fun s => jsTrim s ≠ []
    else sections0
  let (chunks, currentChunk, chunkIndex) :=
    sections.foldl (pdfSectionStep title source) ([], [], 0)
  if jsTrim currentChunk ≠ [] then
    chunks ++ [pdfPiece title source (jsTrim currentChunk) chunkIndex]
  else chunks

/-- RAGService.splitIntoChunks: PDF-like sources (file type pdf or a source
containing .pdf) use the prose-aware strategy; otherwise lines are
accumulated up to CHUNK_SIZE with a word-approximated overlap, and the
trailing accumulation is flushed at the end. -/
def splitIntoChunks (content title source : Str) (metadata : DocMeta) : List ChunkPiece :=
  let isPDF := metadata.fileType == some "pdf".data || jsIncludes ".pdf".data source
  if isPDF then splitPDFContent content title source
  else
    let lines := jsSplitChar '\n' content
    let (chunks, currentChunk, chunkIndex) := lines.foldl (lineStep title source) ([], [], 0)
    if jsTrim currentChunk ≠ [] then
      chunks ++ [textPiece title source (jsTrim currentChunk) chunkIndex]
    else chunks

/-- RAGService.addDocument: hash the content (SHA-256 modelled by the
content itself), return the existing document's id when the hash is already
stored, otherwise create the document, chunk the content and persist every
chunk. The optional structured-data extraction is disabled by default and
is not modelled; it does not affect the stored chunks' text or dedup. -/
def addDocument (st : RAGState) (title content source : Str) (metadata : DocMeta) :
    Nat × RAGState :=
  let contentHash := content
  match st.documents.find? fun d => d.contentHash == contentHash with
  | some existingDoc => (existingDoc.id, st)
  | none =>
    let doc : Document := { id := st.nextDocId, title, content, source, contentHash }
    let pieces := splitIntoChunks content title source metadata
    let newChunks := pieces.enum.map fun (i, piece) =>
      { id := st.nextChunkId + i, documentId := doc.id, content := piece.content,
        meta := piece.meta, createdAt := st.nextChunkId + i : DBChunk }
    (doc.id,
     { documents := st.documents ++ [doc],
       chunks := st.chunks ++ newChunks,
       nextDocId := st.nextDocId + 1,
       nextChunkId := st.nextChunkId + newChunks.length })

/-! ## Pipeline orchestration: enhancedSearch

The two downstream stages are taken as `Except`-valued parameters so that a
stage rejection (any thrown error in the awaited call) is expressible; the
catch-all of enhancedSearch degrades to plain search. The concrete
instantiation wires in reRankChunks and performCorrectiveRAG, neither of
which actually throws. The CorrectiveRAGResult the source computes and
drops is returned as a second component for specification purposes; the
source's return value is the first component. -/

/-- A re-ranking stage as awaited by enhancedSearch. -/
def ReRankStage := Str → List ChunkForRank → Except Unit (List ReRankingResult)

/-- A corrective evaluation stage as awaited by enhancedSearch. -/
def CorrectiveStage := Str → List RAGSearchResult → Except Unit CorrectiveRAGResult

/-- The chunk payload enhancedSearch hands to the re-ranker: id, content,
score, and the metadata bag whose title is the owning document's title (a
string; empty strings are falsy and skipped by the scorer). -/
def toChunkForRank (r : RAGSearchResult) : ChunkForRank :=
  { id := r.chunk.id, content := r.chunk.content, relevanceScore := r.relevanceScore,
    metaTitle := .str r.chunk.meta.title }

/-- A placeholder RChunk for the unreachable branch where a re-ranked id
has no original result (ids are preserved by the re-ranker). -/
def emptyRChunk : RChunk :=
  { id := 0, documentId := 0, content := [],
    meta := { title := [], source := [], chunkIndex := 0, type := [], wordCount := none } }

/-- The body of RAGService.enhancedSearch up to the try/catch: search with
a tripled limit, return empty at once when nothing was found, re-rank,
keep the top limit results carrying their finalScore, and optionally run
the corrective evaluation, whose web-fallback verdict empties the result
list. -/
def enhancedSearchBody (st : RAGState) (reRankS : ReRankStage) (corrS : CorrectiveStage)
    (query : Str) (limit : Nat) (documentIds : Option (List Nat)) (useCorrectiveRAG : Bool) :
    Except Unit (List RAGSearchResult × Option CorrectiveRAGResult) := do
  let initialResults := search st query (limit * 3) documentIds
  if initialResults.length = 0 then
    pure ([], none)
  else
    let chunksForReRanking := initialResults.map toChunkForRank
    let reRankedResults ← reRankS query chunksForReRanking
    let topResults := (reRankedResults.take limit).map fun reRanked =>
      match initialResults.find? fun r => r.chunk.id == reRanked.chunkId with
      | some originalResult => { originalResult with relevanceScore := reRanked.finalScore }
      | none => { chunk := emptyRChunk, similarity := 0, relevanceScore := reRanked.finalScore }
    if useCorrectiveRAG && decide (topResults.length > 0) then
      let correctedResults ← corrS query topResults
      if correctedResults.webSearchPerformed && !correctedResults.useRetrievedContent then
        pure ([], some correctedResults)
      else
        pure (topResults, some correctedResults)
    else
      pure (topResults, none)

/-- RAGService.enhancedSearch with explicit stages: the catch-all falls
back to plain search with the same query, limit and document filter. -/
def enhancedSearchWith (st : RAGState) (reRankS : ReRankStage) (corrS : CorrectiveStage)
    (query : Str) (limit : Nat) (documentIds : Option (List Nat)) (useCorrectiveRAG : Bool) :
    List RAGSearchResult × Option CorrectiveRAGResult :=
  match enhancedSearchBody st reRankS corrS query limit documentIds useCorrectiveRAG with
  | .ok r => r
  | .error _ => (search st query limit documentIds, none)

/-- The corrective stage as enhancedSearch invokes it: the top results are
passed as RAGSearchResult values, so their content reaches the grader only
through the nested chunk.content and their direct content and metadata
title slots are absent; threshold 0.4 and the caller's fallbackToWeb flag. -/
def corrStageOf (oracle : GradingOracle) (fallbackToWeb : Bool) : CorrectiveStage :=
  fun query topResults =>
    .ok (performCorrectiveRAG oracle query
      (topResults.map fun r =>
        { directContent := none, nestedContent := some r.chunk.content, metaTitle := none })
      { relevanceThreshold := 0.4, fallbackToWeb })

/-- RAGService.enhancedSearch wired to the concrete re-ranker and
corrective evaluator. -/
def enhancedSearch (st : RAGState) (oracle : GradingOracle) (query : Str) (limit : Nat)
    (documentIds : Option (List Nat)) (useCorrectiveRAG fallbackToWeb : Bool) :
    List RAGSearchResult × Option CorrectiveRAGResult :=
  enhancedSearchWith st (fun q cs => .ok (reRankChunks q cs)) (corrStageOf oracle fallbackToWeb)
    query limit documentIds useCorrectiveRAG

/-! ## Helper lemmas on the JavaScript primitives -/

theorem mem_insertSorted {lt : α → α → Bool} {x a : α} :
    ∀ {l : List α}, a ∈ insertSorted lt x l ↔ a = x ∨ a ∈ l := by
  intro l
  induction l with
  | nil => simp [insertSorted]
  | cons y ys ih =>
    cases h : lt x y with
    | true => simp [insertSorted, h]
    | false =>
      simp only [insertSorted, h, Bool.false_eq_true, if_false, List.mem_cons, ih]
      tauto

theorem mem_jsSortBy {lt : α → α → Bool} {a : α} {l : List α} :
    a ∈ jsSortBy lt l ↔ a ∈ l := by
  have aux : ∀ (l : List α) (acc : List α),
      a ∈ l.foldl (fun acc x => insertSorted lt x acc) acc ↔ a ∈ acc ∨ a ∈ l := by
    intro l
    induction l with
    | nil => simp
    | cons x xs ih =>
      intro acc
      rw [List.foldl_cons, ih, mem_insertSorted]
      simp only [List.mem_cons]
      tauto
  rw [jsSortBy, aux]
  simp

theorem pairwise_insertSorted_desc (f : α → ℚ) (x : α) {l : List α}
    (h : l.Pairwise fun a b => f b ≤ f a) :
    (insertSorted (ltByDesc f) x l).Pairwise fun a b => f b ≤ f a := by
  induction l with
  | nil => simp [insertSorted]
  | cons y ys ih =>
    rcases List.pairwise_cons.mp h with ⟨hy, hys⟩
    by_cases hlt : ltByDesc f x y
    · have hyx : f y < f x := of_decide_eq_true hlt
      simp only [insertSorted, hlt, if_true]
      refine List.pairwise_cons.mpr ⟨?_, h⟩
      intro z hz
      rcases List.mem_cons.mp hz with rfl | hz
      · exact le_of_lt hyx
      · exact le_trans (hy z hz) (le_of_lt hyx)
    · have hxy : f x ≤ f y := le_of_not_lt (of_decide_eq_false (by simpa [ltByDesc] using hlt))
      simp only [insertSorted, hlt, if_false]
      refine List.pairwise_cons.mpr ⟨?_, ih hys⟩
      intro z hz
      rcases mem_insertSorted.mp hz with rfl | hz
      · exact hxy
      · exact hy z hz

theorem pairwise_jsSortBy_desc (f : α → ℚ) (l : List α) :
    (jsSortBy (ltByDesc f) l).Pairwise fun a b => f b ≤ f a := by
  have aux : ∀ (l acc : List α), acc.Pairwise (fun a b => f b ≤ f a) →
      (l.foldl (fun acc x => insertSorted (ltByDesc f) x acc) acc).Pairwise
        fun a b => f b ≤ f a := by
    intro l
    induction l with
    | nil => intro acc h; simpa using h
    | cons x xs ih =>
      intro acc h
      exact ih _ (pairwise_insertSorted_desc f x h)
  exact aux l [] (by simp)

theorem mapExcept_ok_mem {f : α → Except ε β} :
    ∀ {l : List α} {r : List β}, mapExcept f l = .ok r → ∀ x ∈ r, ∃ c ∈ l, f c = .ok x := by
  intro l
  induction l with
  | nil =>
    intro r h x hx
    simp only [mapExcept] at h
    cases h
    simp at hx
  | cons a as ih =>
    intro r h x hx
    simp only [mapExcept] at h
    cases hfa : f a with
    | error e => rw [hfa] at h; cases h
    | ok y =>
      rw [hfa] at h
      cases hrest : mapExcept f as with
      | error e => rw [hrest] at h; cases h
      | ok ys =>
        rw [hrest] at h
        cases h
        rcases List.mem_cons.mp hx with rfl | hx
        · exact ⟨a, List.mem_cons_self a as, hfa⟩
        · rcases ih hrest x hx with ⟨c, hc, hfc⟩
          exact ⟨c, List.mem_cons_of_mem a hc, hfc⟩

theorem mem_dedupFirstAux [BEq α] [LawfulBEq α] {a : α} :
    ∀ {l seen : List α}, a ∈ dedupFirstAux seen l ↔ a ∈ l ∧ a ∉ seen := by
  intro l
  induction l with
  | nil => simp [dedupFirstAux]
  | cons x xs ih =>
    intro seen
    cases hx : seen.contains x with
    | true =>
      have hxs : x ∈ seen := by simpa [List.elem_iff] using hx
      simp only [dedupFirstAux, hx, if_true, ih, List.mem_cons]
      constructor
      · rintro ⟨h1, h2⟩; exact ⟨Or.inr h1, h2⟩
      · rintro ⟨h1 | h1, h2⟩
        · exact absurd (h1 ▸ hxs) h2
        · exact ⟨h1, h2⟩
    | false =>
      have hxs : x ∉ seen := by simpa [List.elem_iff] using hx
      simp only [dedupFirstAux, hx, Bool.false_eq_true, if_false, List.mem_cons, ih]
      constructor
      · rintro (rfl | ⟨h1, h2⟩)
        · exact ⟨Or.inl rfl, hxs⟩
        · exact ⟨Or.inr h1, fun hc => h2 (Or.inr hc)⟩
      · rintro ⟨rfl | h1, h2⟩
        · exact Or.inl rfl
        · by_cases hax : a = x
          · exact Or.inl hax
          · exact Or.inr ⟨h1, by simp [hax, h2]⟩

theorem mem_dedupFirst [BEq α] [LawfulBEq α] {a : α} {l : List α} :
    a ∈ dedupFirst l ↔ a ∈ l := by
  simp [dedupFirst, mem_dedupFirstAux]

theorem nodup_dedupFirstAux [BEq α] [LawfulBEq α] :
    ∀ (l seen : List α), (dedupFirstAux seen l).Nodup := by
  intro l
  induction l with
  | nil => intro seen; simp [dedupFirstAux]
  | cons x xs ih =>
    intro seen
    cases hx : seen.contains x with
    | true =>
      simp only [dedupFirstAux, hx, if_true]
      exact ih seen
    | false =>
      simp only [dedupFirstAux, hx, Bool.false_eq_true, if_false]
      refine List.nodup_cons.mpr ⟨?_, ih _⟩
      intro hc
      exact (mem_dedupFirstAux.mp hc).2 (List.mem_cons_self x seen)

theorem nodup_dedupFirst [BEq α] [LawfulBEq α] (l : List α) : (dedupFirst l).Nodup :=
  nodup_dedupFirstAux l []

theorem dedupFirst_ne_nil [BEq α] [LawfulBEq α] {l : List α} (h : l ≠ []) :
    dedupFirst l ≠ [] := by
  cases l with
  | nil => exact absurd rfl h
  | cons x xs =>
    simp only [dedupFirst, dedupFirstAux]
    have : ¬ ([] : List α).contains x := by simp [List.elem_iff]
    simp [this]

theorem jsSplitWs_ne_nil : ∀ s : Str, jsSplitWs s ≠ [] := by
  intro s
  induction s with
  | nil => simp [jsSplitWs]
  | cons c cs ih =>
    simp only [jsSplitWs]
    cases h : jsSplitWs cs with
    | nil => simp
    | cons r rs =>
      by_cases hc : isWsChar c
      · cases cs with
        | nil => simp [hc]
        | cons c2 cs2 =>
          by_cases hc2 : isWsChar c2 <;> simp [hc, hc2]
      · simp [hc]

theorem jsIncludes_exists {needle hay : Str} (h : jsIncludes needle hay = true) :
    ∃ i ≤ hay.length, needle <+: hay.drop i := by
  rcases List.any_eq_true.mp h with ⟨i, hi, hpre⟩
  exact ⟨i, Nat.lt_succ_iff.mp (List.mem_range.mp hi),
    List.isPrefixOf_iff_prefix.mp hpre⟩

theorem jsIncludes_intro {needle hay : Str} (i : Nat) (hle : i ≤ hay.length)
    (h : needle <+: hay.drop i) : jsIncludes needle hay = true := by
  refine List.any_eq_true.mpr ⟨i, List.mem_range.mpr (Nat.lt_succ_of_le hle), ?_⟩
  exact List.isPrefixOf_iff_prefix.mpr h

theorem jsIncludes_of_append_right {x y s : Str} (h : jsIncludes (x ++ y) s = true) :
    jsIncludes y s = true := by
  rcases jsIncludes_exists h with ⟨i, hi, t, ht⟩
  have hlen : i + x.length ≤ s.length := by
    have := congrArg List.length ht
    simp only [List.length_drop, List.length_append] at this
    omega
  refine jsIncludes_intro (i + x.length) hlen ⟨t, ?_⟩
  have hdrop : s.drop (i + x.length) = (s.drop i).drop x.length := by
    rw [List.drop_drop]
  rw [hdrop, ← ht]
  simp [List.drop_append_of_le_length]

theorem jsIncludes_of_append_left {x y s : Str} (h : jsIncludes (x ++ y) s = true) :
    jsIncludes x s = true := by
  rcases jsIncludes_exists h with ⟨i, hi, t, ht⟩
  refine jsIncludes_intro i hi ⟨y ++ t, ?_⟩
  rw [← ht, List.append_assoc]

theorem jsIndexOf_le {needle hay : Str} {i : Nat} (h : jsIndexOf needle hay = some i) :
    i ≤ hay.length := by
  have := List.mem_of_find?_eq_some h
  exact Nat.lt_succ_iff.mp (List.mem_range.mp this)

theorem mem_jsTrim {s : Str} {c : Char} (h : c ∈ jsTrim s) : c ∈ s := by
  unfold jsTrim at h
  have h1 := List.mem_reverse.mp h
  have h2 := (List.dropWhile_sublist isWsChar).mem h1
  have h3 := List.mem_reverse.mp h2
  exact (List.dropWhile_sublist isWsChar).mem h3

theorem jsTrim_length_le (s : Str) : (jsTrim s).length ≤ s.length := by
  unfold jsTrim
  calc ((s.dropWhile isWsChar).reverse.dropWhile isWsChar).reverse.length
      = ((s.dropWhile isWsChar).reverse.dropWhile isWsChar).length := List.length_reverse _
    _ ≤ (s.dropWhile isWsChar).reverse.length :=
        (List.dropWhile_sublist isWsChar).length_le
    _ = (s.dropWhile isWsChar).length := List.length_reverse _
    _ ≤ s.length := (List.dropWhile_sublist isWsChar).length_le

theorem not_mem_jsSplitChar (sep : Char) :
    ∀ (s : Str) (w : Str), w ∈ jsSplitChar sep s → sep ∉ w := by
  intro s
  induction s with
  | nil =>
    intro w hw
    simp only [jsSplitChar, List.mem_singleton] at hw
    simp [hw]
  | cons c cs ih =>
    intro w hw
    simp only [jsSplitChar] at hw
    cases h : jsSplitChar sep cs with
    | nil =>
      rw [h] at hw
      simp only [List.mem_singleton] at hw
      simp [hw]
    | cons r rs =>
      rw [h] at hw
      by_cases hc : c = sep
      · simp only [hc, if_true] at hw
        rcases List.mem_cons.mp hw with rfl | hw
        · simp
        · exact ih w (h ▸ hw)
      · simp only [hc, if_false] at hw
        rcases List.mem_cons.mp hw with rfl | hw
        · intro hmem
          rcases List.mem_cons.mp hmem with rfl | hmem
          · exact hc rfl
          · exact ih r (h ▸ List.mem_cons_self r rs) hmem
        · exact ih w (h ▸ List.mem_cons_of_mem r hw)

theorem foldl_ge_init {α : Type} (step : ℚ → α → ℚ) :
    ∀ (l : List α), (∀ acc x, x ∈ l → acc ≤ step acc x) → ∀ acc : ℚ, acc ≤ l.foldl step acc := by
  intro l
  induction l with
  | nil => intro _ acc; simp
  | cons x xs ih =>
    intro hstep acc
    rw [List.foldl_cons]
    calc acc ≤ step acc x := hstep acc x (List.mem_cons_self x xs)
      _ ≤ xs.foldl step (step acc x) :=
        ih (fun a y hy => hstep a y (List.mem_cons_of_mem x hy)) _

theorem cast_div_le_one {i n : Nat} (h : i ≤ n) : (i : ℚ) / (n : ℚ) ≤ 1 := by
  rcases Nat.eq_zero_or_pos n with rfl | hn
  · interval_cases i
    simp
  · rw [div_le_one (by exact_mod_cast hn)]
    exact_mod_cast h

theorem except_map_ok {f : α → β} {m : Except ε α} {b : β}
    (h : m.map f = .ok b) : ∃ a, m = .ok a ∧ b = f a := by
  cases m with
  | error e => simp [Except.map] at h
  | ok a =>
    refine ⟨a, rfl, ?_⟩
    simpa [Except.map] using h.symm

/-! ## Bounds of the lexical search scores -/

theorem similarity_nonneg (query text : Str) : 0 ≤ calculateTextSimilarity query text := by
  unfold calculateTextSimilarity
  positivity

theorem similarity_le_one (query text : Str) : calculateTextSimilarity query text ≤ 1 := by
  unfold calculateTextSimilarity
  apply cast_div_le_one
  apply List.Subperm.length_le
  apply List.subperm_of_subset (nodup_dedupFirst _)
  intro a ha
  have h1 := mem_dedupFirst.mp ha
  have h2 := List.mem_of_mem_filter h1
  exact mem_dedupFirst.mpr (List.mem_append.mpr (Or.inl h2))

theorem scoreSearchChunk_bounds (docs : List Document) (query : Str) (keywords : List Str)
    (c : DBChunk) :
    0 ≤ (scoreSearchChunk docs query keywords c).relevanceScore ∧
    (scoreSearchChunk docs query keywords c).relevanceScore ≤ 100 := by
  obtain ⟨cid, cdoc, ccontent, ⟨mt, ms, mi, mty, mwc⟩, cca⟩ := c
  have hsim : 0 ≤ calculateTextSimilarity query ccontent := similarity_nonneg query ccontent
  unfold scoreSearchChunk
  simp only []
  refine ⟨le_min ?_ (by norm_num), min_le_right _ _⟩
  generalize hs : calculateTextSimilarity query ccontent = s at hsim ⊢
  cases mwc <;>
    split_ifs <;>
    (repeat' apply mul_nonneg) <;>
    first
      | exact hsim
      | positivity

theorem searchBody_ok_shape {db : ChunkDB} {docs : List Document} {query : Str} {limit : Nat}
    {documentIds : Option (List Nat)} {results : List RAGSearchResult}
    (h : searchBody db docs query limit documentIds = .ok results) :
    ∃ retrieved : List DBChunk,
      results = searchRank docs query (extractKeywords query) limit retrieved := by
  unfold searchBody at h
  rcases except_map_ok h with ⟨ps, _, hres⟩
  exact ⟨ps.flatten, hres⟩

theorem searchWith_cases (db : ChunkDB) (docs : List Document) (query : Str) (limit : Nat)
    (documentIds : Option (List Nat)) :
    searchWith db docs query limit documentIds = [] ∨
    ∃ retrieved, searchWith db docs query limit documentIds =
      searchRank docs query (extractKeywords query) limit retrieved := by
  unfold searchWith
  cases hb : searchBody db docs query limit documentIds with
  | error e => exact Or.inl rfl
  | ok results => exact Or.inr (searchBody_ok_shape hb)

theorem mem_searchRank {docs : List Document} {query : Str} {keywords : List Str}
    {limit : Nat} {retrieved : List DBChunk} {r : RAGSearchResult}
    (h : r ∈ searchRank docs query keywords limit retrieved) :
    ∃ c : DBChunk, r = scoreSearchChunk docs query keywords c := by
  unfold searchRank at h
  have h1 := (List.take_sublist _ _).mem h
  have h2 := mem_jsSortBy.mp h1
  rcases List.mem_map.mp h2 with ⟨c, _, hc⟩
  exact ⟨c, hc.symm⟩

theorem searchRank_sorted (docs : List Document) (query : Str) (keywords : List Str)
    (limit : Nat) (retrieved : List DBChunk) :
    (searchRank docs query keywords limit retrieved).Pairwise
      fun a b => b.relevanceScore ≤ a.relevanceScore := by
  unfold searchRank
  exact List.Pairwise.sublist (List.take_sublist _ _)
    (pairwise_jsSortBy_desc RAGSearchResult.relevanceScore _)

theorem searchRank_length_le (docs : List Document) (query : Str) (keywords : List Str)
    (limit : Nat) (retrieved : List DBChunk) :
    (searchRank docs query keywords limit retrieved).length ≤ limit := by
  unfold searchRank
  exact List.length_take_le _ _

/-! ## Bounds of the re-ranker scoring factors -/

theorem calculateTermProximity_nonneg (content : Str) (queryTerms : List Str) :
    0 ≤ calculateTermProximity content queryTerms := by
  unfold calculateTermProximity
  refine le_min ?_ (by norm_num)
  apply foldl_ge_init
  intro acc i _
  dsimp only
  cases h1 : jsIndexOf (queryTerms.getD i []) content with
  | none => exact le_refl acc
  | some i1 =>
    cases h2 : jsIndexOf (queryTerms.getD (i + 1) []) content with
    | none => exact le_refl acc
    | some i2 =>
      dsimp only
      split_ifs with hd
      · apply le_add_of_nonneg_right
        apply mul_nonneg _ (by norm_num)
        apply div_nonneg _ (by norm_num)
        rw [sub_nonneg]
        exact_mod_cast Nat.le_of_lt hd
      · exact le_refl acc

theorem calculatePositionBoost_nonneg (content : Str) (queryTerms : List Str) :
    0 ≤ calculatePositionBoost content queryTerms := by
  unfold calculatePositionBoost
  refine le_min ?_ (by norm_num)
  apply foldl_ge_init
  intro acc term _
  dsimp only
  cases h : jsIndexOf term content with
  | none => exact le_refl acc
  | some index =>
    dsimp only
    have hle : (index : ℚ) / (content.length : ℚ) ≤ 1 := cast_div_le_one (jsIndexOf_le h)
    nlinarith

theorem calculateLengthPenalty_ge (content : Str) : -5 ≤ calculateLengthPenalty content := by
  unfold calculateLengthPenalty
  dsimp only
  split_ifs <;> norm_num

theorem calculateLengthPenalty_le (content : Str) : calculateLengthPenalty content ≤ 3 := by
  unfold calculateLengthPenalty
  dsimp only
  split_ifs <;> norm_num


/-- Nonnegativity of the title factor, on the region where the embedding
is faithful: the source divides by queryTerms.length, so with no extracted
terms and a truthy title it computes NaN, which the rational embedding
cannot represent; the hypothesis confines the lemma to queries with at
least one extracted term. -/
theorem titleBoostOf_nonneg (queryTerms : List Str) (mt : MetaTitle)
    (hterms : queryTerms ≠ []) :
    0 ≤ titleBoostOf queryTerms mt := by
  cases mt with
  | absent => exact le_refl 0
  | nonString => exact le_refl 0
  | str t =>
    unfold titleBoostOf
    dsimp only
    split_ifs
    · exact le_refl 0
    · have hlen : (0:ℚ) < (queryTerms.length : ℚ) := by
        exact_mod_cast List.length_pos.mpr hterms
      exact mul_nonneg (div_nonneg (by positivity) hlen.le) (by norm_num)

/-- Lower bound of the bonus sum: the length penalty (at least -5) is the
only negative factor. Stated for queries with at least one extracted term,
the region on which the embedding of the title factor is faithful (the
source computes NaN otherwise). -/
theorem computeScoringFactorsPure_bounds (query : Str) (queryTerms queryBigrams : List Str)
    (chunk : ChunkForRank) (hterms : queryTerms ≠ []) :
    -5 ≤ bonusSum (computeScoringFactorsPure query queryTerms queryBigrams chunk) := by
  have hexact : (0:ℚ) ≤ if jsIncludes (jsToLower query) (jsToLower chunk.content) then 25 else 0 := by
    split_ifs <;> norm_num
  have hphrase : (0:ℚ) ≤ (extractPhrases query).foldl
      (fun acc phrase =>
        if jsIncludes (jsToLower phrase) (jsToLower chunk.content) then
          acc + 15 / ((extractPhrases query).length : ℚ) else acc) 0 := by
    apply foldl_ge_init
    intro acc x _
    split_ifs
    · have : (0:ℚ) ≤ 15 / ((extractPhrases query).length : ℚ) := by positivity
      linarith
    · exact le_refl acc
  have hfreq : (0:ℚ) ≤ queryTerms.foldl
      (fun acc term =>
        let occ := countTermOccurrences term (jsToLower chunk.content)
        if occ > 0 then acc + min ((occ : ℚ) * 3) 12 else acc) 0 := by
    apply foldl_ge_init
    intro acc term _
    simp only []
    split_ifs
    · have : (0:ℚ) ≤ min ((countTermOccurrences term (jsToLower chunk.content) : ℚ) * 3) 12 :=
        le_min (by positivity) (by norm_num)
      linarith
    · exact le_refl acc
  have hbigram : (0:ℚ) ≤ queryBigrams.foldl
      (fun acc bigram =>
        if jsIncludes (jsToLower bigram) (jsToLower chunk.content) then acc + 8 else acc) 0 := by
    apply foldl_ge_init
    intro acc bigram _
    split_ifs
    · linarith
    · exact le_refl acc
  have hprox := calculateTermProximity_nonneg (jsToLower chunk.content) queryTerms
  have hpos := calculatePositionBoost_nonneg (jsToLower chunk.content) queryTerms
  have hlen := calculateLengthPenalty_ge chunk.content
  have htitle := titleBoostOf_nonneg queryTerms chunk.metaTitle hterms
  unfold computeScoringFactorsPure bonusSum
  simp only []
  linarith

theorem computeScoringFactors_ok {query : Str} {queryTerms queryBigrams : List Str}
    {chunk : ChunkForRank} {f : ScoringFactors}
    (h : computeScoringFactors query queryTerms queryBigrams chunk = .ok f) :
    f = computeScoringFactorsPure query queryTerms queryBigrams chunk := by
  unfold computeScoringFactors at h
  cases htitle : chunk.metaTitle with
  | absent => rw [htitle] at h; cases h; rfl
  | nonString => rw [htitle] at h; cases h
  | str t => rw [htitle] at h; cases h; rfl

theorem scoreChunkCE_ok {query : Str} {queryTerms queryBigrams : List Str}
    {chunk : ChunkForRank} {res : ReRankingResult}
    (h : scoreChunkCE query queryTerms queryBigrams chunk = .ok res) :
    res = { chunkId := chunk.id, content := chunk.content,
            originalScore := chunk.relevanceScore,
            crossEncoderScore := min (chunk.relevanceScore +
              bonusSum (computeScoringFactorsPure query queryTerms queryBigrams chunk)) 100,
            finalScore := min (chunk.relevanceScore +
              bonusSum (computeScoringFactorsPure query queryTerms queryBigrams chunk)) 100 } ∧
    computeScoringFactors query queryTerms queryBigrams chunk =
      .ok (computeScoringFactorsPure query queryTerms queryBigrams chunk) := by
  unfold scoreChunkCE at h
  rcases except_map_ok h with ⟨f, hf, hres⟩
  have hpure := computeScoringFactors_ok hf
  subst hpure
  exact ⟨hres, hf⟩

/-! ## Size invariants of the prose-aware chunker -/

theorem jsTrim_not_mem {s : Str} {c : Char} (h : c ∉ s) : c ∉ jsTrim s :=
  fun hc => h (mem_jsTrim hc)

/-- A piece within the prose-aware size discipline: at most CHUNK_SIZE plus
the two uncounted separator characters, or free of spaces (indivisible for
the space-splitting word loop). -/
def pdfSized (p : ChunkPiece) : Prop :=
  p.content.length ≤ CHUNK_SIZE + 2 ∨ ' ' ∉ p.content

theorem flushInto_inv {mk : Str → Nat → ChunkPiece} {chunks : List ChunkPiece} {cur : Str}
    {idx : Nat} (hmk : ∀ s i, (mk s i).content = s)
    (hpieces : ∀ p ∈ chunks, pdfSized p)
    (hcur : cur.length ≤ CHUNK_SIZE + 2 ∨ ' ' ∉ cur) :
    ∀ p ∈ (flushInto mk chunks cur idx).1, pdfSized p := by
  unfold flushInto
  split_ifs
  · intro p hp
    rcases List.mem_append.mp hp with hp | hp
    · exact hpieces p hp
    · rcases List.mem_singleton.mp hp with rfl
      rcases hcur with hlen | hsp
      · exact Or.inl (by rw [hmk]; exact le_trans (jsTrim_length_le cur) hlen)
      · exact Or.inr (by rw [hmk]; exact jsTrim_not_mem hsp)
  · exact hpieces

theorem pdfWordStep_inv (title source : Str) (st : List ChunkPiece × Str × Nat) (word : Str)
    (hw : ' ' ∉ word)
    (hpieces : ∀ p ∈ st.1, pdfSized p)
    (hwc : st.2.1.length ≤ CHUNK_SIZE + 1 ∨ ' ' ∉ st.2.1) :
    (∀ p ∈ (pdfWordStep title source st word).1, pdfSized p) ∧
    ((pdfWordStep title source st word).2.1.length ≤ CHUNK_SIZE + 1 ∨
      ' ' ∉ (pdfWordStep title source st word).2.1) := by
  obtain ⟨chunks, wc, idx⟩ := st
  simp only [pdfWordStep]
  split_ifs with hsize hne
  · refine ⟨?_, Or.inr hw⟩
    exact flushInto_inv (fun s i => rfl) hpieces
      (hwc.imp (fun h => le_trans h (by norm_num)) id)
  · refine ⟨hpieces, Or.inl ?_⟩
    simp only [List.length_append, List.length_cons]
    simp only [] at hsize
    omega
  · push_neg at hne
    subst hne
    exact ⟨hpieces, Or.inr (by simpa using hw)⟩

theorem pdfWordFold_inv (title source : Str) (words : List Str)
    (hws : ∀ w ∈ words, ' ' ∉ w) :
    ∀ st : List ChunkPiece × Str × Nat,
    (∀ p ∈ st.1, pdfSized p) →
    (st.2.1.length ≤ CHUNK_SIZE + 1 ∨ ' ' ∉ st.2.1) →
    (∀ p ∈ (words.foldl (pdfWordStep title source) st).1, pdfSized p) ∧
    ((words.foldl (pdfWordStep title source) st).2.1.length ≤ CHUNK_SIZE + 1 ∨
      ' ' ∉ (words.foldl (pdfWordStep title source) st).2.1) := by
  induction words with
  | nil => intro st h1 h2; exact ⟨h1, h2⟩
  | cons w ws ih =>
    intro st h1 h2
    rw [List.foldl_cons]
    have hstep := pdfWordStep_inv title source st w
      (hws w (List.mem_cons_self w ws)) h1 h2
    exact ih (fun x hx => hws x (List.mem_cons_of_mem w hx)) _ hstep.1 hstep.2

theorem pdfSectionStep_inv (title source : Str) (st : List ChunkPiece × Str × Nat) (sec : Str)
    (hpieces : ∀ p ∈ st.1, pdfSized p)
    (hcur : st.2.1.length ≤ CHUNK_SIZE + 2 ∨ ' ' ∉ st.2.1) :
    (∀ p ∈ (pdfSectionStep title source st sec).1, pdfSized p) ∧
    ((pdfSectionStep title source st sec).2.1.length ≤ CHUNK_SIZE + 2 ∨
      ' ' ∉ (pdfSectionStep title source st sec).2.1) := by
  obtain ⟨chunks, cur, idx⟩ := st
  simp only [pdfSectionStep]
  have hflush : ∀ p ∈ (flushInto (pdfPiece title source) chunks cur idx).1, pdfSized p :=
    flushInto_inv (fun s i => rfl) hpieces hcur
  split_ifs with hsize hbig hne
  · -- flush, then split the oversized section on spaces
    have hws : ∀ w ∈ jsSplitChar ' ' (jsTrim sec), ' ' ∉ w :=
      fun w hw => not_mem_jsSplitChar ' ' (jsTrim sec) w hw
    have hfold := pdfWordFold_inv title source (jsSplitChar ' ' (jsTrim sec)) hws
      ((flushInto (pdfPiece title source) chunks cur idx).1, [],
        (flushInto (pdfPiece title source) chunks cur idx).2)
      hflush (Or.inl (Nat.zero_le _))
    exact ⟨hfold.1, hfold.2.imp (fun h => le_trans h (by norm_num)) id⟩
  · -- flush, the section becomes the new accumulation
    refine ⟨hflush, Or.inl ?_⟩
    show (jsTrim sec).length ≤ CHUNK_SIZE + 2
    omega
  · -- the section still fits and the accumulation is nonempty
    refine ⟨hpieces, Or.inl ?_⟩
    show (cur ++ '\n' :: '\n' :: jsTrim sec).length ≤ CHUNK_SIZE + 2
    simp only [List.length_append, List.length_cons]
    omega
  · -- the section still fits and the accumulation is empty
    push_neg at hne
    subst hne
    refine ⟨hpieces, Or.inl ?_⟩
    show (([] : Str) ++ jsTrim sec).length ≤ CHUNK_SIZE + 2
    simp only [List.nil_append]
    simp only [List.length_nil] at hsize
    omega

theorem pdfSectionFold_inv (title source : Str) (sections : List Str) :
    ∀ st : List ChunkPiece × Str × Nat,
    (∀ p ∈ st.1, pdfSized p) →
    (st.2.1.length ≤ CHUNK_SIZE + 2 ∨ ' ' ∉ st.2.1) →
    (∀ p ∈ (sections.foldl (pdfSectionStep title source) st).1, pdfSized p) ∧
    ((sections.foldl (pdfSectionStep title source) st).2.1.length ≤ CHUNK_SIZE + 2 ∨
      ' ' ∉ (sections.foldl (pdfSectionStep title source) st).2.1) := by
  induction sections with
  | nil => intro st h1 h2; exact ⟨h1, h2⟩
  | cons sec secs ih =>
    intro st h1 h2
    rw [List.foldl_cons]
    have hstep := pdfSectionStep_inv title source st sec h1 h2
    exact ih _ hstep.1 hstep.2

theorem pdfFinal_sized (title source : Str) (sections : List Str) :
    ∀ p ∈ (if jsTrim (sections.foldl (pdfSectionStep title source) ([], [], 0)).2.1 ≠ [] then
        (sections.foldl (pdfSectionStep title source) ([], [], 0)).1 ++
          [pdfPiece title source
            (jsTrim (sections.foldl (pdfSectionStep title source) ([], [], 0)).2.1)
            (sections.foldl (pdfSectionStep title source) ([], [], 0)).2.2]
      else (sections.foldl (pdfSectionStep title source) ([], [], 0)).1),
      pdfSized p := by
  intro p hp
  have hfold := pdfSectionFold_inv title source sections ([], [], 0)
    (by intro q hq; simp at hq) (Or.inl (Nat.zero_le _))
  split_ifs at hp
  · rcases List.mem_append.mp hp with h | h
    · exact hfold.1 p h
    · rcases List.mem_singleton.mp h with rfl
      rcases hfold.2 with hlen | hsp
      · exact Or.inl (le_trans (jsTrim_length_le _) hlen)
      · exact Or.inr (jsTrim_not_mem hsp)
  · exact hfold.1 p hp

theorem splitPDFContent_sized (content title source : Str) :
    ∀ p ∈ splitPDFContent content title source, pdfSized p := by
  intro p hp
  exact pdfFinal_sized title source _ p hp

/-! ## Claim theorems -/

/-- C6: calling addDocument a second time with content identical to an
already-ingested document returns the same documentId as the first call,
leaves the store state untouched (so no new Document record and no
re-chunking), and in particular keeps the total chunk count and document
count unchanged. -/
theorem C6_addDocument_idempotent (st : RAGState) (t1 c s1 : Str) (m1 : DocMeta)
    (t2 s2 : Str) (m2 : DocMeta) :
    (addDocument (addDocument st t1 c s1 m1).2 t2 c s2 m2).1 = (addDocument st t1 c s1 m1).1 ∧
    (addDocument (addDocument st t1 c s1 m1).2 t2 c s2 m2).2 = (addDocument st t1 c s1 m1).2 ∧
    (addDocument (addDocument st t1 c s1 m1).2 t2 c s2 m2).2.chunks.length =
      (addDocument st t1 c s1 m1).2.chunks.length ∧
    (addDocument (addDocument st t1 c s1 m1).2 t2 c s2 m2).2.documents.length =
      (addDocument st t1 c s1 m1).2.documents.length := by
  unfold addDocument
  cases hfind : st.documents.find? fun d => d.contentHash == c with
  | some d => simp [hfind]
  | none =>
    simp only [hfind]
    rw [List.find?_append, hfind]
    simp [List.find?]

/-- Length of the grading loop output. -/
theorem gradeChunksFrom_length (oracle : GradingOracle) :
    ∀ (chunks : List CRChunk) (start : Nat),
      (gradeChunksFrom oracle start chunks).length = chunks.length := by
  intro chunks
  induction chunks with
  | nil => intro start; rfl
  | cons chunk rest ih =>
    intro start
    simp only [gradeChunksFrom, List.length_cons, ih]

/-- The i-th grade of the grading loop is the per-chunk grade at the
shifted oracle index. -/
theorem gradeChunksFrom_getD (oracle : GradingOracle) (dg : RelevanceGrade) (dc : CRChunk) :
    ∀ (chunks : List CRChunk) (start i : Nat), i < chunks.length →
      (gradeChunksFrom oracle start chunks).getD i dg =
        gradeOne oracle (start + i) (chunks.getD i dc) := by
  intro chunks
  induction chunks with
  | nil => intro start i hi; simp at hi
  | cons chunk rest ih =>
    intro start i hi
    cases i with
    | zero => simp [gradeChunksFrom]
    | succ j =>
      have hj : j < rest.length := by simpa using hi
      simp only [gradeChunksFrom, List.getD_cons_succ]
      rw [ih (start + 1) j hj]
      congr 1
      omega

/-- C8: grading produces exactly one grade per input chunk, and a chunk
whose grading service call throws receives the default grade
partially_relevant with confidence exactly 0.5 while the remaining chunks
are still graded. -/
theorem C8_grading_failure_is_chunk_local (oracle : GradingOracle) (chunks : List CRChunk) :
    (gradeChunkRelevance oracle chunks).length = chunks.length ∧
    (∀ i, i < chunks.length →
      crContent (chunks.getD i ⟨none, none, none⟩) ≠ [] →
      oracle i = .error () →
      (gradeChunkRelevance oracle chunks).getD i
          ⟨true, 0, [], .relevant⟩ =
        { relevant := true, confidence := 0.5, reasoning := gradeErrorMsg,
          grade := .partially_relevant }) := by
  constructor
  · exact gradeChunksFrom_length oracle chunks 0
  · intro i hi hcontent herr
    rw [gradeChunkRelevance, gradeChunksFrom_getD oracle _ ⟨none, none, none⟩ chunks 0 i hi]
    unfold gradeOne
    rw [if_neg hcontent]
    rw [Nat.zero_add, herr]

/-- C8 witness: a single chunk with content whose grading call throws is
graded partially_relevant at confidence 0.5. -/
theorem C8_witness :
    (gradeChunkRelevance (fun _ => .error ()) [⟨none, some "x".data, none⟩]).getD 0
        ⟨true, 0, [], .relevant⟩ =
      { relevant := true, confidence := 0.5, reasoning := gradeErrorMsg,
        grade := .partially_relevant } :=
  (C8_grading_failure_is_chunk_local (fun _ => .error ()) [⟨none, some "x".data, none⟩]).2
    0 (by decide) (by decide) rfl

/-- C9: when any downstream pipeline stage of enhancedSearch throws, the
exception is not propagated: the call degrades to plain lexical search with
the same query, limit and document filter (and no corrective side channel). -/
theorem C9_stage_error_degrades_to_search (st : RAGState) (reRankS : ReRankStage)
    (corrS : CorrectiveStage) (query : Str) (limit : Nat) (documentIds : Option (List Nat))
    (useCorrectiveRAG : Bool) (e : Unit)
    (herr : enhancedSearchBody st reRankS corrS query limit documentIds useCorrectiveRAG =
      .error e) :
    enhancedSearchWith st reRankS corrS query limit documentIds useCorrectiveRAG =
      (search st query limit documentIds, none) := by
  unfold enhancedSearchWith
  rw [herr]

/-- C5 (amended): an internal error while scoring any chunk of the batch
degrades the WHOLE batch, not just the failing chunk: every chunk's
finalScore falls back to its original input relevanceScore and the batch is
returned in input order. -/
theorem C5_batch_error_degrades_all (query : Str) (chunks : List ChunkForRank) (e : Unit)
    (herr : performEnhancedLexicalRanking query chunks = .error e) :
    reRankChunks query chunks = chunks.map degradedResult ∧
    (reRankChunks query chunks).map ReRankingResult.finalScore =
      chunks.map ChunkForRank.relevanceScore := by
  have hchunks : ¬ chunks.length = 0 := by
    intro h0
    rw [List.length_eq_zero] at h0
    subst h0
    simp [performEnhancedLexicalRanking, mapExcept, Except.map] at herr
  unfold reRankChunks
  rw [if_neg hchunks, herr]
  refine ⟨rfl, ?_⟩
  rw [List.map_map]
  rfl

/-- Decidable equality for Except, so that concrete error outcomes can be
checked by decide. -/
instance instDecEqExcept {ε α : Type} [DecidableEq ε] [DecidableEq α] :
    DecidableEq (Except ε α) := fun a b =>
  match a, b with
  | .error e, .error f =>
    if h : e = f then isTrue (by rw [h])
    else isFalse (by intro hc; injection hc; contradiction)
  | .error _, .ok _ => isFalse (by intro hc; exact Except.noConfusion hc)
  | .ok _, .error _ => isFalse (by intro hc; exact Except.noConfusion hc)
  | .ok x, .ok y =>
    if h : x = y then isTrue (by rw [h])
    else isFalse (by intro hc; injection hc; contradiction)

/-! ## Concrete inputs used by counterexamples and witnesses -/

/-- A two-keyword query with no analysis words and no stop words. -/
def cexQuery : Str := "xyzabc qwerty".data

/-- A chunk whose only connection to cexQuery is the substring xyzabc
inside a longer word: retrieved by keyword containment, Jaccard similarity
zero, fewer than ten words, and the keyword occurrence near the end. -/
def cexContent : Str :=
  "aaaaaaaaaaaaaaaaaaaa bbbbbbbbbbbbbbbbbbbb cccccccccccccccccccc xyzabcdef".data

/-- A one-document, one-chunk store holding cexContent. -/
def cexState : RAGState :=
  { documents := [{ id := 1, title := "doc".data, content := cexContent,
                    source := "src".data, contentHash := cexContent }],
    chunks := [{ id := 1, documentId := 1, content := cexContent,
                 meta := { title := "doc".data, source := "src".data, chunkIndex := 0,
                           type := "text_chunk".data, wordCount := none },
                 createdAt := 0 }],
    nextDocId := 2, nextChunkId := 2 }

/-- A grading oracle that always throws. -/
def throwingOracle : GradingOracle := fun _ => .error ()

/-- A re-ranking stage that rejects (its awaited promise throws). -/
def failingReRankStage : ReRankStage := fun _ _ => .error ()

/-- The query of the C5 scenario. -/
def c5Query : Str := "machine learning".data

/-- A chunk whose metadata title is a truthy non-string: scoring it throws. -/
def c5Faulty : ChunkForRank :=
  { id := 1, content := "short".data, relevanceScore := 10, metaTitle := .nonString }

/-- A healthy chunk that scores far above its input score when the batch
has no failure: it contains the query verbatim. -/
def c5Healthy : ChunkForRank :=
  { id := 2, content := "machine learning".data, relevanceScore := 10, metaTitle := .absent }

/-- A single line longer than CHUNK_SIZE (1004 characters), containing many
words. -/
def cexLongLine : Str := (List.replicate 251 "abc ".data).flatten

/-- A default piece for getD-style witnesses. -/
def emptyPiece : ChunkPiece := ⟨[], ⟨[], [], 0, [], none⟩⟩

/-- The empty store: lexical retrieval finds nothing in it. -/
def emptyState : RAGState :=
  { documents := [], chunks := [], nextDocId := 0, nextChunkId := 0 }

/-- Structure eta for the scoring factors, used to assemble a concrete
factor record from field-wise evaluations. -/
theorem scoringFactors_eta (f : ScoringFactors) :
    f = ⟨f.exactMatch, f.phraseMatch, f.termFrequency, f.termProximity,
         f.positionBoost, f.lengthPenalty, f.titleBoost, f.bigramMatch⟩ := rfl

/-- The eight factors of c5Healthy against c5Query, evaluated field by
field (a single whole-record evaluation nests too deeply for the
elaborator). -/
theorem c5Healthy_factors :
    computeScoringFactorsPure c5Query (extractQueryTermsCE c5Query)
      (generateBigrams (extractQueryTermsCE c5Query)) c5Healthy =
    ⟨25, 0, 6, 184 / 25, 15 / 2, -5, 0, 8⟩ := by
  have e1 : (computeScoringFactorsPure c5Query (extractQueryTermsCE c5Query)
      (generateBigrams (extractQueryTermsCE c5Query)) c5Healthy).exactMatch = 25 := by
    with_unfolding_all decide
  have e2 : (computeScoringFactorsPure c5Query (extractQueryTermsCE c5Query)
      (generateBigrams (extractQueryTermsCE c5Query)) c5Healthy).phraseMatch = 0 := by
    with_unfolding_all decide
  have e3 : (computeScoringFactorsPure c5Query (extractQueryTermsCE c5Query)
      (generateBigrams (extractQueryTermsCE c5Query)) c5Healthy).termFrequency = 6 := by
    with_unfolding_all decide
  have e4 : (computeScoringFactorsPure c5Query (extractQueryTermsCE c5Query)
      (generateBigrams (extractQueryTermsCE c5Query)) c5Healthy).termProximity = 184 / 25 := by
    with_unfolding_all decide
  have e5 : (computeScoringFactorsPure c5Query (extractQueryTermsCE c5Query)
      (generateBigrams (extractQueryTermsCE c5Query)) c5Healthy).positionBoost = 15 / 2 := by
    with_unfolding_all decide
  have e6 : (computeScoringFactorsPure c5Query (extractQueryTermsCE c5Query)
      (generateBigrams (extractQueryTermsCE c5Query)) c5Healthy).lengthPenalty = -5 := by
    with_unfolding_all decide
  have e7 : (computeScoringFactorsPure c5Query (extractQueryTermsCE c5Query)
      (generateBigrams (extractQueryTermsCE c5Query)) c5Healthy).titleBoost = 0 := by
    with_unfolding_all decide
  have e8 : (computeScoringFactorsPure c5Query (extractQueryTermsCE c5Query)
      (generateBigrams (extractQueryTermsCE c5Query)) c5Healthy).bigramMatch = 8 := by
    with_unfolding_all decide
  rw [scoringFactors_eta (computeScoringFactorsPure c5Query (extractQueryTermsCE c5Query)
    (generateBigrams (extractQueryTermsCE c5Query)) c5Healthy), e1, e2, e3, e4, e5, e6, e7, e8]

/-- Error-free scoring of c5Healthy alone: finalScore 2943/50 = 58.86. -/
theorem c5Healthy_alone :
    (performEnhancedLexicalRanking c5Query [c5Healthy]).map
      (List.map ReRankingResult.finalScore) = .ok [2943 / 50] := by
  have hok : computeScoringFactors c5Query (extractQueryTermsCE c5Query)
      (generateBigrams (extractQueryTermsCE c5Query)) c5Healthy =
      .ok (computeScoringFactorsPure c5Query (extractQueryTermsCE c5Query)
        (generateBigrams (extractQueryTermsCE c5Query)) c5Healthy) := rfl
  have hscore : scoreChunkCE c5Query (extractQueryTermsCE c5Query)
      (generateBigrams (extractQueryTermsCE c5Query)) c5Healthy =
      .ok ⟨2, c5Healthy.content, 10, 2943 / 50, 2943 / 50⟩ := by
    unfold scoreChunkCE
    rw [hok, c5Healthy_factors]
    simp only [Except.map, bonusSum]
    norm_num [c5Healthy, min_def]
  unfold performEnhancedLexicalRanking
  simp only [mapExcept, hscore, Except.map, jsSortBy, List.foldl, insertSorted, List.map]

/-- C5 counterexample: with the faulty chunk in the batch, BOTH chunks fall
back to their original score 10, although scoring the healthy chunk alone
succeeds with finalScore 58.86 — an internal error on one chunk alters the
scoring of the other chunks of the batch, contradicting the claim that
re-ranking failure is chunk-local. -/
theorem C5_counterexample :
    (reRankChunks c5Query [c5Faulty, c5Healthy]).map ReRankingResult.finalScore = [10, 10] ∧
    (performEnhancedLexicalRanking c5Query [c5Healthy]).map
      (List.map ReRankingResult.finalScore) = .ok [2943 / 50] ∧
    (10 : ℚ) < 2943 / 50 := by
  refine ⟨?_, c5Healthy_alone, by norm_num⟩
  with_unfolding_all decide

/-- C5 witness: a batch whose only chunk fails to score degrades to the
original scores. -/
theorem C5_batch_error_degrades_all_witness :
    reRankChunks c5Query [c5Faulty] = [c5Faulty].map degradedResult ∧
    (reRankChunks c5Query [c5Faulty]).map ReRankingResult.finalScore =
      [c5Faulty].map ChunkForRank.relevanceScore :=
  C5_batch_error_degrades_all c5Query [c5Faulty] () (by with_unfolding_all decide)

set_option maxRecDepth 10000 in
/-- C9 witness: with a rejecting re-ranking stage on a store that does
return initial results, enhancedSearch returns exactly the plain search
results. -/
theorem C9_stage_error_degrades_to_search_witness :
    enhancedSearchWith cexState failingReRankStage (corrStageOf throwingOracle true)
      cexQuery 5 none true = (search cexState cexQuery 5 none, none) :=
  C9_stage_error_degrades_to_search cexState failingReRankStage
    (corrStageOf throwingOracle true) cexQuery 5 none true ()
    (by with_unfolding_all decide)

/-- C3: with a nonempty graded chunk set and fallback enabled, the
corrective evaluator accepts the retrieved content exactly when
overallRelevance — the fraction of grades that are relevant or
partially_relevant over the total number of chunks — is at least the
threshold AND some grade is relevant with confidence strictly above 0.8;
otherwise it performs the fallback and reports webSearchPerformed = true
with useRetrievedContent = false. Acceptance also means no web search and
no correction reason. -/
theorem C3_corrective_decision (oracle : GradingOracle) (query : Str)
    (chunks : List CRChunk) (threshold : ℚ) (hne : chunks ≠ []) :
    (((performCorrectiveRAG oracle query chunks
        { relevanceThreshold := threshold, fallbackToWeb := true }).useRetrievedContent = true) ↔
      ((((gradeChunkRelevance oracle chunks).filter fun grade =>
            grade.grade = .relevant ∨ grade.grade = .partially_relevant).length : ℚ) /
          (chunks.length : ℚ) ≥ threshold ∧
        ((gradeChunkRelevance oracle chunks).any fun grade =>
          grade.grade = .relevant && decide (grade.confidence > 0.8)) = true)) ∧
    (¬ ((((gradeChunkRelevance oracle chunks).filter fun grade =>
            grade.grade = .relevant ∨ grade.grade = .partially_relevant).length : ℚ) /
          (chunks.length : ℚ) ≥ threshold ∧
        ((gradeChunkRelevance oracle chunks).any fun grade =>
          grade.grade = .relevant && decide (grade.confidence > 0.8)) = true) →
      (performCorrectiveRAG oracle query chunks
        { relevanceThreshold := threshold, fallbackToWeb := true }).webSearchPerformed = true ∧
      (performCorrectiveRAG oracle query chunks
        { relevanceThreshold := threshold, fallbackToWeb := true }).useRetrievedContent = false) ∧
    (((((gradeChunkRelevance oracle chunks).filter fun grade =>
            grade.grade = .relevant ∨ grade.grade = .partially_relevant).length : ℚ) /
          (chunks.length : ℚ) ≥ threshold ∧
        ((gradeChunkRelevance oracle chunks).any fun grade =>
          grade.grade = .relevant && decide (grade.confidence > 0.8)) = true) →
      (performCorrectiveRAG oracle query chunks
        { relevanceThreshold := threshold, fallbackToWeb := true }).webSearchPerformed = false ∧
      (performCorrectiveRAG oracle query chunks
        { relevanceThreshold := threshold, fallbackToWeb := true }).correctionReason = none) := by
  have hlen : ¬ chunks.length = 0 := by
    simpa [List.length_eq_zero] using hne
  unfold performCorrectiveRAG
  rw [if_neg hlen]
  dsimp only
  split_ifs with hcond hfb
  · simp only [Bool.and_eq_true, decide_eq_true_eq] at hcond
    refine ⟨⟨fun _ => hcond, fun _ => rfl⟩, ?_, ?_⟩
    · intro hnot
      exact absurd hcond hnot
    · intro _
      exact ⟨rfl, rfl⟩
  · simp only [Bool.and_eq_true, decide_eq_true_eq, not_and] at hcond
    refine ⟨⟨?_, ?_⟩, ?_, ?_⟩
    · intro hfalse
      exact absurd hfalse (by decide)
    · intro hacc
      exact absurd hacc.2 (hcond hacc.1)
    · intro _
      exact ⟨rfl, rfl⟩
    · intro hacc
      exact absurd hacc.2 (hcond hacc.1)
  · exact absurd rfl hfb

/-- C3 witness: one chunk graded relevant (confidence 0.9) at threshold 0.4
is accepted. -/
theorem C3_corrective_decision_witness :
    (performCorrectiveRAG (fun _ => .ok "relevant".data) "q".data
      [⟨none, some "alpha".data, none⟩]
      { relevanceThreshold := 0.4, fallbackToWeb := true }).useRetrievedContent = true :=
  ((C3_corrective_decision (fun _ => .ok "relevant".data) "q".data
    [⟨none, some "alpha".data, none⟩] 0.4 (by decide)).1).mpr
    (by constructor
        · with_unfolding_all decide
        · with_unfolding_all decide)

/-- C4 counterexample: a reply containing both the word irrelevant and the
phrase partially relevant is graded partially_relevant with confidence 0.6
by the source, not irrelevant as the claimed priority (irrelevant first)
would demand. -/
theorem C4_counterexample :
    parseRelevanceGrade "partially relevant or irrelevant".data =
      { relevant := true, confidence := 0.6, grade := .partially_relevant } ∧
    (parseRelevanceGrade "partially relevant or irrelevant".data).grade ≠ .irrelevant := by
  constructor
  · with_unfolding_all decide
  · with_unfolding_all decide

/-- C4 amended: the parser's actual branch priority. A reply whose
lower-cased trimmed text contains the phrase partially_relevant or
partially relevant is graded partially_relevant with confidence 0.6, even
when it also contains irrelevant — the partial keywords take priority over
irrelevant, not the other way round. A reply containing irrelevant but
neither partial phrase is graded irrelevant with confidence 0.8. A reply
not containing relevant at all matches no branch and defaults to
partially_relevant with confidence 0.4. -/
theorem C4_parse_priority (r : Str) :
    ((jsIncludes "partially_relevant".data (jsToLower (jsTrim r)) = true ∨
      jsIncludes "partially relevant".data (jsToLower (jsTrim r)) = true) →
      parseRelevanceGrade r =
        { relevant := true, confidence := 0.6, grade := .partially_relevant }) ∧
    (jsIncludes "irrelevant".data (jsToLower (jsTrim r)) = true →
      jsIncludes "partially_relevant".data (jsToLower (jsTrim r)) = false →
      jsIncludes "partially relevant".data (jsToLower (jsTrim r)) = false →
      parseRelevanceGrade r =
        { relevant := false, confidence := 0.8, grade := .irrelevant }) ∧
    (jsIncludes "relevant".data (jsToLower (jsTrim r)) = false →
      parseRelevanceGrade r =
        { relevant := true, confidence := 0.4, grade := .partially_relevant }) := by
  refine ⟨?_, ?_, ?_⟩
  · intro hpart
    have hpartially : jsIncludes "partially".data (jsToLower (jsTrim r)) = true := by
      rcases hpart with h | h
      · rw [show ("partially_relevant".data : Str) =
            "partially".data ++ "_relevant".data from by decide] at h
        exact jsIncludes_of_append_left h
      · rw [show ("partially relevant".data : Str) =
            "partially".data ++ " relevant".data from by decide] at h
        exact jsIncludes_of_append_left h
    have h2 : (jsIncludes "partially_relevant".data (jsToLower (jsTrim r)) ||
        jsIncludes "partially relevant".data (jsToLower (jsTrim r))) = true := by
      rcases hpart with h | h <;> simp [h]
    unfold parseRelevanceGrade
    simp [hpartially, h2]
  · intro hirr hp1 hp2
    unfold parseRelevanceGrade
    simp [hirr, hp1, hp2]
  · intro hrel
    have hp1 : jsIncludes "partially_relevant".data (jsToLower (jsTrim r)) = false := by
      cases hb : jsIncludes "partially_relevant".data (jsToLower (jsTrim r)) with
      | false => rfl
      | true =>
        rw [show ("partially_relevant".data : Str) =
            "partially_".data ++ "relevant".data from by decide] at hb
        have := jsIncludes_of_append_right hb
        simp [this] at hrel
    have hp2 : jsIncludes "partially relevant".data (jsToLower (jsTrim r)) = false := by
      cases hb : jsIncludes "partially relevant".data (jsToLower (jsTrim r)) with
      | false => rfl
      | true =>
        rw [show ("partially relevant".data : Str) =
            "partially ".data ++ "relevant".data from by decide] at hb
        have := jsIncludes_of_append_right hb
        simp [this] at hrel
    have hirr : jsIncludes "irrelevant".data (jsToLower (jsTrim r)) = false := by
      cases hb : jsIncludes "irrelevant".data (jsToLower (jsTrim r)) with
      | false => rfl
      | true =>
        rw [show ("irrelevant".data : Str) =
            "ir".data ++ "relevant".data from by decide] at hb
        have := jsIncludes_of_append_right hb
        simp [this] at hrel
    unfold parseRelevanceGrade
    simp [hrel, hp1, hp2, hirr]

/-- C7 counterexample: against the empty store, lexical retrieval yields
zero chunks, and enhancedSearch with corrective RAG enabled and fallback
enabled returns the empty result list with an EMPTY side channel (none):
the corrective evaluator's zero-chunk fallback path is never reached, so
no fallback text is produced, contradicting the claimed non-empty
side-channel text. -/
theorem C7_counterexample :
    search emptyState "what is love".data (5 * 3) none = [] ∧
    enhancedSearch emptyState throwingOracle "what is love".data 5 none true true =
      ([], none) := by
  constructor
  · with_unfolding_all decide
  · with_unfolding_all decide

set_option maxRecDepth 4000 in
/-- C7 amended: whenever lexical retrieval at the tripled limit yields
zero chunks, enhancedSearch (any stages, corrective RAG enabled) returns
the empty result list immediately and the corrective side channel is none
— the evaluator's zero-chunk path is unreachable from enhancedSearch. That
path itself, called directly with zero chunks, does produce the fallback:
webSearchPerformed is true, useRetrievedContent is false, and the final
content is non-empty canned guidance text. -/
theorem C7_zero_chunk_behaviour :
    (∀ (st : RAGState) (reRankS : ReRankStage) (corrS : CorrectiveStage) (query : Str)
      (limit : Nat) (documentIds : Option (List Nat)),
      search st query (limit * 3) documentIds = [] →
      enhancedSearchWith st reRankS corrS query limit documentIds true = ([], none)) ∧
    (∀ (oracle : GradingOracle) (query : Str) (options : CROptions),
      (performCorrectiveRAG oracle query [] options).webSearchPerformed = true ∧
      (performCorrectiveRAG oracle query [] options).useRetrievedContent = false ∧
      (performCorrectiveRAG oracle query [] options).finalContent ≠ []) := by
  constructor
  · intro st reRankS corrS query limit documentIds h
    unfold enhancedSearchWith enhancedSearchBody
    rw [h]
    rfl
  · intro oracle query options
    have hres : performCorrectiveRAG oracle query [] options =
        performWebSearchFallback query := rfl
    rw [hres]
    refine ⟨rfl, rfl, ?_⟩
    unfold performWebSearchFallback
    dsimp only
    intro hcon
    have hlen := congrArg List.length hcon
    simp only [List.length_append, List.length_nil] at hlen
    have hp : 0 < webFallbackPrefix.length := by decide
    omega

set_option maxRecDepth 10000 in
/-- C2 counterexample: the line-based strategy never splits within a line,
so a single 1004-character line of many space-separated words is emitted as
one chunk whose content exceeds CHUNK_SIZE although it is not a single
unsplittable word (it contains spaces). -/
theorem C2_counterexample :
    ∃ c ∈ splitIntoChunks cexLongLine "t".data "s".data ⟨none⟩,
      CHUNK_SIZE < c.content.length ∧ ' ' ∈ c.content := by
  with_unfolding_all decide

/-- C2 amended: the size bound holds for the prose-aware PDF strategy in
the slightly weaker form CHUNK_SIZE + 2 (the joining newlines are not
counted against the budget by the source): every emitted chunk either has
content length at most CHUNK_SIZE + 2 or contains no space at all (a
single unsplittable token). The line-based strategy admits no such bound;
see the counterexample. -/
theorem C2_pdf_chunk_size (content title source : Str) :
    ∀ p ∈ splitPDFContent content title source,
      p.content.length ≤ CHUNK_SIZE + 2 ∨ ' ' ∉ p.content := by
  intro p hp
  exact splitPDFContent_sized content title source p hp

/-- C2 witness: the PDF strategy on a short two-word text emits one chunk,
and the amended bound holds for it. -/
theorem C2_pdf_chunk_size_witness :
    ((splitPDFContent "hello world".data "t".data "s".data).getD 0 emptyPiece).content.length
        ≤ CHUNK_SIZE + 2 ∨
      ' ' ∉ ((splitPDFContent "hello world".data "t".data "s".data).getD 0 emptyPiece).content :=
  C2_pdf_chunk_size "hello world".data "t".data "s".data
    ((splitPDFContent "hello world".data "t".data "s".data).getD 0 emptyPiece)
    (by with_unfolding_all decide)

/-- C10: the search contract. For every store oracle, query, limit and
document filter, the result list of search has length at most limit and is
sorted by descending relevanceScore; a storage failure anywhere in the
body is caught and yields the empty list rather than propagating. -/
theorem C10_search_contract (db : ChunkDB) (docs : List Document) (query : Str)
    (limit : Nat) (documentIds : Option (List Nat)) :
    (searchWith db docs query limit documentIds).length ≤ limit ∧
    (searchWith db docs query limit documentIds).Pairwise
      (fun a b => b.relevanceScore ≤ a.relevanceScore) ∧
    ∀ e : Unit, searchBody db docs query limit documentIds = .error e →
      searchWith db docs query limit documentIds = [] := by
  refine ⟨?_, ?_, ?_⟩
  · rcases searchWith_cases db docs query limit documentIds with h | ⟨retrieved, h⟩
    · rw [h]
      exact Nat.zero_le _
    · rw [h]
      exact searchRank_length_le docs query (extractKeywords query) limit retrieved
  · rcases searchWith_cases db docs query limit documentIds with h | ⟨retrieved, h⟩
    · rw [h]
      exact List.Pairwise.nil
    · rw [h]
      exact searchRank_sorted docs query (extractKeywords query) limit retrieved
  · intro e he
    unfold searchWith
    rw [he]

set_option maxRecDepth 10000 in
/-- C1 counterexample: a negative finalScore reachable through the full
pipeline. Against a store holding one chunk whose only tie to the query is
a keyword buried inside a longer word, lexical search scores it 0 (the
Jaccard similarity is zero, and every boost multiplies zero), and the
re-ranker's bonuses sum to 5/8 - 5 (position boost 5/8, length penalty -5,
all other factors zero), dragging the finalScore to -35/8, which the
pipeline returns as the relevanceScore of its top result: the claimed
lower bound 0 fails. -/
theorem C1_counterexample :
    (enhancedSearch cexState throwingOracle cexQuery 5 none false false).1.map
      RAGSearchResult.relevanceScore = [-(35 : ℚ) / 8] ∧
    (-(35 : ℚ) / 8) < 0 := by
  constructor
  · with_unfolding_all decide
  · norm_num

/-- C1 amended: the lexical relevanceScore always lies in [0, 100]. The
re-ranker bounds are stated for queries with at least one extracted term —
the region on which the rational embedding is faithful: for a term-free
query (all stop words or short words) and a chunk with a truthy title, the
source divides 0 by 0 computing the title boost and the resulting NaN
poisons the finalScore, so no bound holds there. On the faithful region,
every successfully re-ranked chunk has finalScore = min(originalScore +
sum of the eight bonuses, 100), hence finalScore at most 100 — but the
only lower bound is originalScore - 5 (the length penalty is the sole
negative factor and is bounded by -5), so a finalScore below 0 is possible
whenever the original score is below 5 (see the counterexample). -/
theorem C1_score_bounds (db : ChunkDB) (docs : List Document) (query : Str)
    (limit : Nat) (documentIds : Option (List Nat)) :
    (∀ r ∈ searchWith db docs query limit documentIds,
      0 ≤ r.relevanceScore ∧ r.relevanceScore ≤ 100) ∧
    (extractQueryTermsCE query ≠ [] →
      ∀ (chunks : List ChunkForRank) (results : List ReRankingResult),
      performEnhancedLexicalRanking query chunks = .ok results →
      ∀ res ∈ results, ∃ c ∈ chunks,
        res.originalScore = c.relevanceScore ∧
        res.finalScore = min (c.relevanceScore +
          bonusSum (computeScoringFactorsPure query (extractQueryTermsCE query)
            (generateBigrams (extractQueryTermsCE query)) c)) 100 ∧
        res.finalScore ≤ 100 ∧
        (c.relevanceScore ≤ 100 → c.relevanceScore - 5 ≤ res.finalScore)) := by
  constructor
  · intro r hr
    rcases searchWith_cases db docs query limit documentIds with h | ⟨retrieved, h⟩
    · rw [h] at hr
      cases hr
    · rw [h] at hr
      rcases mem_searchRank hr with ⟨c, hc⟩
      rw [hc]
      exact scoreSearchChunk_bounds docs query (extractKeywords query) c
  · intro hterms chunks results hok res hres
    unfold performEnhancedLexicalRanking at hok
    dsimp only at hok
    rcases except_map_ok hok with ⟨scored, hsc, hresults⟩
    rw [hresults] at hres
    have hmem := mem_jsSortBy.mp hres
    rcases mapExcept_ok_mem hsc res hmem with ⟨c, hcmem, hcok⟩
    rcases scoreChunkCE_ok hcok with ⟨hshape, _⟩
    have hb := computeScoringFactorsPure_bounds query (extractQueryTermsCE query)
      (generateBigrams (extractQueryTermsCE query)) c hterms
    refine ⟨c, hcmem, ?_, ?_, ?_, ?_⟩
    · rw [hshape]
    · rw [hshape]
    · rw [hshape]
      exact min_le_right _ _
    · intro hle
      rw [hshape]
      dsimp only
      apply le_min
      · linarith
      · linarith

end Chattie
